import Mathlib

/-!
Verification development for the ECAS downloader (`src/app/main.py`).

The file shallowly embeds the pure core of the program:
  * `sanitize`, `parse_date_any`, `extract_relevant_dates_text`,
    `guess_pleading_name_from_text`, `build_new_filename` are direct
    translations of the Python functions of the same name;
  * the Selenium-driven calendar traversal
    (`iterate_hearings_collect_anums`) and the per-case document
    harvester (`download_case_docs`) are embedded as functions over an
    explicit environment describing what the external UI / filesystem
    returns (pages, popup texts, document rows, files appearing in the
    download directory); the browser itself is an opaque capability.

Python's `re` module is embedded by a small backtracking regex engine
over an explicit syntax of the constructs the program's patterns use
(character-class repetition, alternation, option, case-insensitive
literals, one capture group, word boundary).  Match candidates are
produced in Python's backtracking priority order (alternatives tried
left to right, repetitions greedy), and `search` / `finditer` /
`findall` take the first candidate at the leftmost matching position,
continuing after the consumed text, exactly as `re` does.

`datetime.strptime` is embedded for the six formats the program uses,
following CPython's `_strptime` field regexes: `%m` is
`1[0-2]|0[1-9]|[1-9]`, `%d` is `3[01]|[12]\d|0[1-9]|[1-9]`, `%y` is
`\d\d`, `%Y` is `\d\d\d\d`, `%b`/`%B` are alternations of the English
month names matched case-insensitively, whitespace in the format
matches a nonempty whitespace run, and the whole string must be
consumed; the resulting numbers must form a valid `datetime.date`
(year 1..9999, day bounded by the Gregorian month length).  All
character predicates are the ASCII ones (the strings the program
manipulates are ASCII).
-/

/-! ### Character utilities -/

/-- Decimal digit character for `k ≤ 9` (`'0'`..`'9'`). -/
def digChar (k : Nat) : Char := Char.ofNat (48 + k)

/-- Numeric value of a digit character. -/
def digVal (c : Char) : Nat := c.toNat - 48

/-- ASCII digit test (`\d`, `str.isdigit` on the strings involved). -/
def isDigitCh (c : Char) : Bool := '0' ≤ c && c ≤ '9'

/-- ASCII whitespace (`\s` in `re`, `str.strip`/`str.split` default). -/
def isSpaceCh (c : Char) : Bool :=
  c = ' ' || c = '\t' || c = '\n' || c = '\r' || c = '\x0b' || c = '\x0c'

/-- `\w` word character: letters, digits, underscore (ASCII). -/
def isWordCh (c : Char) : Bool :=
  ('a' ≤ c && c ≤ 'z') || ('A' ≤ c && c ≤ 'Z') || isDigitCh c || c = '_'

/-- ASCII alphabetic test (`str.isalpha`). -/
def isAlphaCh (c : Char) : Bool :=
  ('a' ≤ c && c ≤ 'z') || ('A' ≤ c && c ≤ 'Z')

/-- ASCII uppercase test (`str.isupper` on a single cased character). -/
def isUpperCh (c : Char) : Bool := 'A' ≤ c && c ≤ 'Z'

/-- ASCII lowercasing, used to model `re.I` matching. -/
def lowCh (c : Char) : Char :=
  if 'A' ≤ c && c ≤ 'Z' then Char.ofNat (c.toNat + 32) else c

/-- ASCII uppercasing (`str.upper`). -/
def upCh (c : Char) : Char :=
  if 'a' ≤ c && c ≤ 'z' then Char.ofNat (c.toNat - 32) else c

/-! ### List/string utilities shared by the embedded functions -/

/-- `str.strip()` : drop ASCII whitespace from both ends. -/
def stripChars (l : List Char) : List Char :=
  ((l.dropWhile isSpaceCh).reverse.dropWhile isSpaceCh).reverse

/-- The line boundaries of `str.splitlines()`: `\n`, `\r` (with
`\r\n` counting as one), `\v` (0x0b), `\f` (0x0c), the file, group
and record separators 0x1c-0x1e, NEL 0x85 and the Unicode line and
paragraph separators U+2028 and U+2029. -/
def isLineBoundary (c : Char) : Bool :=
  c = '\n' || c = '\r' || c = '\x0b' || c = '\x0c' ||
    c = '\x1c' || c = '\x1d' || c = '\x1e' ||
    c = '\x85' || c = '\u2028' || c = '\u2029'

/-- `str.splitlines()` : split at every line boundary, with `\r\n`
consumed as a single boundary; no trailing empty line is produced for
a trailing terminator, and `""` gives `[]`. -/
def splitLinesAux : List Char → List Char → List (List Char)
  | [], cur => if cur.isEmpty then [] else [cur.reverse]
  | '\r' :: '\n' :: rest, cur => cur.reverse :: splitLinesAux rest []
  | c :: rest, cur =>
    if isLineBoundary c then cur.reverse :: splitLinesAux rest []
    else splitLinesAux rest (c :: cur)

def splitLinesPy (l : List Char) : List (List Char) := splitLinesAux l []

/-- Order-preserving deduplication keeping the first occurrence,
modelling `dict.fromkeys` / accumulation into a `set`. -/
def dkf : List String → List String
  | [] => []
  | x :: xs => x :: (dkf xs).filter (fun y => y ≠ x)

/-- Substring containment, modelling Python's `needle in haystack`. -/
def containsSub (hay needle : List Char) : Bool :=
  match hay with
  | [] => needle.isEmpty
  | _ :: rest => needle.isPrefixOf hay || containsSub rest needle

/-- Decimal rendering of a natural number (`str(i)` / f-string). -/
def natCharsAux : Nat → Nat → List Char
  | 0, _ => []
  | fuel + 1, n =>
    if n < 10 then [digChar n] else natCharsAux fuel (n / 10) ++ [digChar (n % 10)]

def natChars (n : Nat) : List Char := natCharsAux (n + 1) n

/-! ### Regex engine

Syntax of the regular expressions the program uses, and a matcher
returning all match candidates in Python's backtracking priority
order.  A candidate is `(consumed, rest, capture)` with
`consumed ++ rest` the input; `capture` is the text of the single
group of interest (`(?P<date>...)` resp. group 1) when it matched. -/

inductive RE where
  | eps : RE
  | cls : (Char → Bool) → RE
  | litCI : List Char → RE
  | litCS : List Char → RE
  | seq : RE → RE → RE
  | alt : RE → RE → RE
  | opt : RE → RE
  | rep : (Char → Bool) → Nat → Option Nat → RE
  | grp : RE → RE
  | bnd : RE

/-- Case-insensitive prefix match for `litCI`. -/
def prefCI : List Char → List Char → Option (List Char)
  | [], s => some s
  | _ :: _, [] => none
  | w :: ws, c :: cs => if lowCh c = lowCh w then prefCI ws cs else none

/-- Case-sensitive prefix match for `litCS`. -/
def prefCS : List Char → List Char → Option (List Char)
  | [], s => some s
  | _ :: _, [] => none
  | w :: ws, c :: cs => if c = w then prefCS ws cs else none

/-- Greedy candidates of a bounded character-class repetition:
lengths from the largest feasible down to the minimum. -/
def repCand (p : Char → Bool) (mn : Nat) (mx : Option Nat) (s : List Char) :
    List (List Char × List Char) :=
  let run := (s.takeWhile p).length
  let top := match mx with
    | some m => min m run
    | none => run
  if mn ≤ top then
    (List.range (top + 1 - mn)).map (fun j => (s.take (top - j), s.drop (top - j)))
  else []

def isWordOpt : Option Char → Bool
  | none => false
  | some c => isWordCh c

/-- All match candidates of `r` at the start of `s`, in priority
order.  `prev` is the character just before `s` (for `\b`). -/
def mtch : RE → Option Char → List Char →
    List (List Char × List Char × Option (List Char))
  | .eps, _, s => [([], s, none)]
  | .cls p, _, s =>
    match s with
    | [] => []
    | c :: rest => if p c then [([c], rest, none)] else []
  | .litCI w, _, s =>
    match prefCI w s with
    | some rest => [(s.take w.length, rest, none)]
    | none => []
  | .litCS w, _, s =>
    match prefCS w s with
    | some rest => [(s.take w.length, rest, none)]
    | none => []
  | .seq a b, prev, s =>
    (mtch a prev s).flatMap fun x =>
      (mtch b (x.1.getLast? <|> prev) x.2.1).map fun y =>
        (x.1 ++ y.1, y.2.1, x.2.2 <|> y.2.2)
  | .alt a b, prev, s => mtch a prev s ++ mtch b prev s
  | .opt a, prev, s => mtch a prev s ++ [([], s, none)]
  | .rep p mn mx, _, s => (repCand p mn mx s).map fun x => (x.1, x.2, none)
  | .grp a, prev, s => (mtch a prev s).map fun x => (x.1, x.2.1, some x.1)
  | .bnd, prev, s =>
    if isWordOpt prev ≠ isWordOpt s.head? then [([], s, none)] else []

/-- First match (Python `re.search`): leftmost position, first
candidate there.  Returns `(consumed, rest, capture)`. -/
def searchFrom (r : RE) : Option Char → List Char →
    Option (List Char × List Char × Option (List Char))
  | prev, s =>
    match mtch r prev s with
    | m :: _ => some m
    | [] =>
      match s with
      | [] => none
      | c :: rest => searchFrom r (some c) rest

/-- `re.finditer`, collecting each match's `(consumed, capture)`.
Scanning resumes after the consumed text (one character further for
an empty match, as in `re`). -/
def findIterAux (r : RE) : Nat → Option Char → List Char →
    List (List Char × Option (List Char))
  | 0, _, _ => []
  | fuel + 1, prev, s =>
    match mtch r prev s with
    | m :: _ =>
      (m.1, m.2.2) ::
        (match m.1 with
         | [] =>
           match s with
           | [] => []
           | c :: rest => findIterAux r fuel (some c) rest
         | _ => findIterAux r fuel (m.1.getLast? <|> prev) m.2.1)
    | [] =>
      match s with
      | [] => []
      | c :: rest => findIterAux r fuel (some c) rest

def findIter (r : RE) (s : List Char) : List (List Char × Option (List Char)) :=
  findIterAux r (s.length + 1) none s

/-- Sequencing sugar for building the pattern terms. -/
def reSeq : List RE → RE
  | [] => .eps
  | [r] => r
  | r :: rs => .seq r (reSeq rs)

def reAlts : List RE → RE
  | [] => .cls (fun _ => false)
  | [r] => r
  | r :: rs => .alt r (reAlts rs)

/-! ### `datetime.strptime` for the program's six formats

Each `%`-field parser returns its candidate `(value, rest)` pairs in
the priority order of the corresponding CPython `_strptime` regex
alternation; sequencing explores candidates in order (backtracking)
and the first fully-consumed, calendar-valid parse wins, exactly as a
regex full match followed by `datetime()` construction. -/

/-- `%m`: `1[0-2]|0[1-9]|[1-9]`. -/
def pmM (s : List Char) : List (Nat × List Char) :=
  (match s with
   | c1 :: c2 :: rest =>
     (if c1 = '1' && '0' ≤ c2 && c2 ≤ '2' then [(10 + digVal c2, rest)] else []) ++
     (if c1 = '0' && '1' ≤ c2 && c2 ≤ '9' then [(digVal c2, rest)] else [])
   | _ => []) ++
  (match s with
   | c1 :: rest => if '1' ≤ c1 && c1 ≤ '9' then [(digVal c1, rest)] else []
   | _ => [])

/-- `%d`: `3[01]|[12]\d|0[1-9]|[1-9]`. -/
def pmD (s : List Char) : List (Nat × List Char) :=
  (match s with
   | c1 :: c2 :: rest =>
     (if c1 = '3' && '0' ≤ c2 && c2 ≤ '1' then [(30 + digVal c2, rest)] else []) ++
     (if ('1' ≤ c1 && c1 ≤ '2') && isDigitCh c2 then
        [(10 * digVal c1 + digVal c2, rest)] else []) ++
     (if c1 = '0' && '1' ≤ c2 && c2 ≤ '9' then [(digVal c2, rest)] else [])
   | _ => []) ++
  (match s with
   | c1 :: rest => if '1' ≤ c1 && c1 ≤ '9' then [(digVal c1, rest)] else []
   | _ => [])

/-- `%Y`: `\d\d\d\d` (exactly four digits). -/
def pmY4 (s : List Char) : List (Nat × List Char) :=
  match s with
  | c1 :: c2 :: c3 :: c4 :: rest =>
    if isDigitCh c1 && isDigitCh c2 && isDigitCh c3 && isDigitCh c4 then
      [(((digVal c1 * 10 + digVal c2) * 10 + digVal c3) * 10 + digVal c4, rest)]
    else []
  | _ => []

/-- `%y`: `\d\d`, with the POSIX century rule `0..68 ↦ 20yy`,
`69..99 ↦ 19yy`. -/
def pmY2 (s : List Char) : List (Nat × List Char) :=
  match s with
  | c1 :: c2 :: rest =>
    if isDigitCh c1 && isDigitCh c2 then
      let v := digVal c1 * 10 + digVal c2
      [(if v ≤ 68 then 2000 + v else 1900 + v, rest)]
    else []
  | _ => []

/-- Whitespace in a `strptime` format: `\s+`, greedy candidates. -/
def pmWS (s : List Char) : List (Unit × List Char) :=
  (repCand isSpaceCh 1 none s).map fun x => ((), x.2)

/-- A literal character of the format. -/
def pmLit (c : Char) (s : List Char) : List (Unit × List Char) :=
  match s with
  | c' :: rest => if c' = c then [((), rest)] else []
  | [] => []

def monthAbbrevs : List (Nat × List Char) :=
  [(1, ['j','a','n']), (2, ['f','e','b']), (3, ['m','a','r']),
   (4, ['a','p','r']), (5, ['m','a','y']), (6, ['j','u','n']),
   (7, ['j','u','l']), (8, ['a','u','g']), (9, ['s','e','p']),
   (10, ['o','c','t']), (11, ['n','o','v']), (12, ['d','e','c'])]

def monthFulls : List (Nat × List Char) :=
  [(1, ['j','a','n','u','a','r','y']), (2, ['f','e','b','r','u','a','r','y']),
   (3, ['m','a','r','c','h']), (4, ['a','p','r','i','l']),
   (5, ['m','a','y']), (6, ['j','u','n','e']), (7, ['j','u','l','y']),
   (8, ['a','u','g','u','s','t']), (9, ['s','e','p','t','e','m','b','e','r']),
   (10, ['o','c','t','o','b','e','r']), (11, ['n','o','v','e','m','b','e','r']),
   (12, ['d','e','c','e','m','b','e','r'])]

/-- `%b` / `%B`: case-insensitive alternation of the English month
names.  No name is a prefix of another within either list, so at most
one alternative matches and candidate order is immaterial. -/
def pmMon (names : List (Nat × List Char)) (s : List Char) : List (Nat × List Char) :=
  names.flatMap fun nw =>
    match prefCI nw.2 s with
    | some rest => [(nw.1, rest)]
    | none => []

/-- Backtracking sequencing of field parsers. -/
def pbind {α β : Type} (xs : List (α × List Char))
    (f : α → List Char → List (β × List Char)) : List (β × List Char) :=
  xs.flatMap fun x => f x.1 x.2

/-- Gregorian month length, as validated by `datetime`. -/
def daysInMonth (y m : Nat) : Nat :=
  if m = 2 then
    if y % 4 = 0 && (y % 100 ≠ 0 || y % 400 = 0) then 29 else 28
  else if m = 4 || m = 6 || m = 9 || m = 11 then 30 else 31

/-- `datetime.date` constructor validity (MINYEAR..MAXYEAR). -/
def validDate (y m d : Nat) : Bool :=
  1 ≤ y && y ≤ 9999 && 1 ≤ m && m ≤ 12 && 1 ≤ d && d ≤ daysInMonth y m

/-- Pick the first fully-consumed, calendar-valid candidate. -/
def firstValid : List ((Nat × Nat × Nat) × List Char) → Option (Nat × Nat × Nat)
  | [] => none
  | (v, rest) :: more =>
    if rest.isEmpty && validDate v.1 v.2.1 v.2.2 then some v else firstValid more

/-- `strptime(s, "%m/%d/%Y")`, as `(year, month, day)`. -/
def strptimeMDY (s : List Char) : Option (Nat × Nat × Nat) :=
  firstValid <| pbind (pmM s) fun m s => pbind (pmLit '/' s) fun _ s =>
    pbind (pmD s) fun d s => pbind (pmLit '/' s) fun _ s =>
      pbind (pmY4 s) fun y s => [((y, m, d), s)]

/-- `strptime(s, "%m-%d-%Y")`. -/
def strptimeMDYdash (s : List Char) : Option (Nat × Nat × Nat) :=
  firstValid <| pbind (pmM s) fun m s => pbind (pmLit '-' s) fun _ s =>
    pbind (pmD s) fun d s => pbind (pmLit '-' s) fun _ s =>
      pbind (pmY4 s) fun y s => [((y, m, d), s)]

/-- `strptime(s, "%Y-%m-%d")`. -/
def strptimeYmd (s : List Char) : Option (Nat × Nat × Nat) :=
  firstValid <| pbind (pmY4 s) fun y s => pbind (pmLit '-' s) fun _ s =>
    pbind (pmM s) fun m s => pbind (pmLit '-' s) fun _ s =>
      pbind (pmD s) fun d s => [((y, m, d), s)]

/-- `strptime(s, "%m/%d/%y")`. -/
def strptimeMDy (s : List Char) : Option (Nat × Nat × Nat) :=
  firstValid <| pbind (pmM s) fun m s => pbind (pmLit '/' s) fun _ s =>
    pbind (pmD s) fun d s => pbind (pmLit '/' s) fun _ s =>
      pbind (pmY2 s) fun y s => [((y, m, d), s)]

/-- `strptime(s, "%b %d, %Y")`. -/
def strptimeBdY (s : List Char) : Option (Nat × Nat × Nat) :=
  firstValid <| pbind (pmMon monthAbbrevs s) fun m s => pbind (pmWS s) fun _ s =>
    pbind (pmD s) fun d s => pbind (pmLit ',' s) fun _ s =>
      pbind (pmWS s) fun _ s => pbind (pmY4 s) fun y s => [((y, m, d), s)]

/-- `strptime(s, "%B %d, %Y")`. -/
def strptimeBBdY (s : List Char) : Option (Nat × Nat × Nat) :=
  firstValid <| pbind (pmMon monthFulls s) fun m s => pbind (pmWS s) fun _ s =>
    pbind (pmD s) fun d s => pbind (pmLit ',' s) fun _ s =>
      pbind (pmWS s) fun _ s => pbind (pmY4 s) fun y s => [((y, m, d), s)]

/-! ### `parse_date_any` -/

/-- Two-digit zero-padded rendering (`strftime` `%m`, `%d`). -/
def pad2 (n : Nat) : List Char := [digChar (n / 10 % 10), digChar (n % 10)]

/-- Four-digit zero-padded rendering (`strftime` `%Y`). -/
def pad4 (n : Nat) : List Char :=
  [digChar (n / 1000 % 10), digChar (n / 100 % 10), digChar (n / 10 % 10),
   digChar (n % 10)]

/-- `dt.strftime("%m-%d-%Y")`. -/
def fmtCanon (v : Nat × Nat × Nat) : List Char :=
  pad2 v.2.1 ++ ['-'] ++ pad2 v.2.2 ++ ['-'] ++ pad4 v.1

/-- The ordered format list of `parse_date_any`. -/
def tryFmts (s : List Char) : Option (Nat × Nat × Nat) :=
  (strptimeMDY s).orElse fun _ =>
  (strptimeMDYdash s).orElse fun _ =>
  (strptimeYmd s).orElse fun _ =>
  (strptimeMDy s).orElse fun _ =>
  (strptimeBdY s).orElse fun _ =>
  strptimeBBdY s

/-- Fallback search pattern `\b(\d{4})-(\d{2})-(\d{2})\b`. -/
def isoSearchRE : RE :=
  reSeq [.bnd, .rep isDigitCh 4 (some 4), .litCS ['-'], .rep isDigitCh 2 (some 2),
         .litCS ['-'], .rep isDigitCh 2 (some 2), .bnd]

/-- Fallback search pattern `\b(\d{1,2})/(\d{1,2})/(\d{4})\b`. -/
def slashSearchRE : RE :=
  reSeq [.bnd, .rep isDigitCh 1 (some 2), .litCS ['/'], .rep isDigitCh 1 (some 2),
         .litCS ['/'], .rep isDigitCh 4 (some 4), .bnd]

/-- Core of `parse_date_any` on character lists.  Mirrors the source:
empty input short-circuits, the input is stripped, the six explicit
formats are tried in order, then the two pattern searches each try a
strict re-parse of the found substring (`m.group(0)`), silently
falling through on failure, and finally the (stripped) input is
returned unchanged. -/
def pdaCore (l : List Char) : List Char :=
  if l.isEmpty then [] else
  let s := stripChars l
  match tryFmts s with
  | some v => fmtCanon v
  | none =>
    let iso : Option (List Char) :=
      match searchFrom isoSearchRE none s with
      | some m => match strptimeYmd m.1 with
        | some v => some (fmtCanon v)
        | none => none
      | none => none
    match iso with
    | some out => out
    | none =>
      let slash : Option (List Char) :=
        match searchFrom slashSearchRE none s with
        | some m => match strptimeMDY m.1 with
          | some v => some (fmtCanon v)
          | none => none
        | none => none
      slash.getD s

/-- `parse_date_any` of `src/app/main.py`. -/
def parse_date_any (s : String) : String := ⟨pdaCore s.data⟩

/-! ### `extract_relevant_dates_text` -/

def lc (s : String) : List Char := s.data

/-- The common date alternation
`(?P<date>(?:\w{3,9}\s+\d{1,2},\s+\d{4})|(?:\d{1,2}/\d{1,2}/\d{2,4}))`. -/
def datePat : RE :=
  .grp (.alt
    (reSeq [.rep isWordCh 3 (some 9), .rep isSpaceCh 1 none,
            .rep isDigitCh 1 (some 2), .litCS [','], .rep isSpaceCh 1 none,
            .rep isDigitCh 4 (some 4)])
    (reSeq [.rep isDigitCh 1 (some 2), .litCS ['/'], .rep isDigitCh 1 (some 2),
            .litCS ['/'], .rep isDigitCh 2 (some 4)]))

/-- `hearing (?:is )?set (?:for|on)\s+<date>` (re.I). -/
def hearingSetPat : RE :=
  reSeq [.litCI (lc "hearing "), .opt (.litCI (lc "is ")), .litCI (lc "set "),
         .alt (.litCI (lc "for")) (.litCI (lc "on")), .rep isSpaceCh 1 none, datePat]

/-- `individual hearing on\s+<date>` (re.I). -/
def indivHearingPat : RE :=
  reSeq [.litCI (lc "individual hearing on"), .rep isSpaceCh 1 none, datePat]

/-- `master hearing on\s+<date>` (re.I). -/
def masterHearingPat : RE :=
  reSeq [.litCI (lc "master hearing on"), .rep isSpaceCh 1 none, datePat]

/-- `(?:applications?|relief|brief|evidence|documents?)\s+(?:are\s+)?due\s+(?:by|on)\s+<date>` (re.I). -/
def duePat : RE :=
  reSeq [reAlts [.seq (.litCI (lc "application")) (.opt (.litCI (lc "s"))),
                 .litCI (lc "relief"), .litCI (lc "brief"), .litCI (lc "evidence"),
                 .seq (.litCI (lc "document")) (.opt (.litCI (lc "s")))],
         .rep isSpaceCh 1 none,
         .opt (.seq (.litCI (lc "are")) (.rep isSpaceCh 1 none)),
         .litCI (lc "due"), .rep isSpaceCh 1 none,
         .alt (.litCI (lc "by")) (.litCI (lc "on")), .rep isSpaceCh 1 none, datePat]

/-- `deadline(?:s)?\s+(?:set|is|are)\s+(?:for|on)\s+<date>` (re.I). -/
def deadlinePat : RE :=
  reSeq [.litCI (lc "deadline"), .opt (.litCI (lc "s")), .rep isSpaceCh 1 none,
         reAlts [.litCI (lc "set"), .litCI (lc "is"), .litCI (lc "are")],
         .rep isSpaceCh 1 none,
         .alt (.litCI (lc "for")) (.litCI (lc "on")), .rep isSpaceCh 1 none, datePat]

/-- The labelled pattern list, in source order. -/
def relPatterns : List (RE × String) :=
  [(hearingSetPat, "HEARING"), (indivHearingPat, "HEARING"),
   (masterHearingPat, "HEARING"), (duePat, "DUE"), (deadlinePat, "DEADLINE")]

def extractCore (text : List Char) : String :=
  if text.isEmpty then "" else
  let findings := relPatterns.flatMap fun pr =>
    (findIter pr.1 text).filterMap fun m =>
      match m.2 with
      | some d =>
        if d.isEmpty then none
        else some (pr.2 ++ " " ++ (⟨pdaCore d⟩ : String))
      | none => none
  String.intercalate " ; " (dkf (findings.filter (fun f => f ≠ "")))

/-- `extract_relevant_dates_text` of `src/app/main.py`. -/
def extract_relevant_dates_text (s : String) : String := extractCore s.data

/-! ### `guess_pleading_name_from_text` -/

/-- `\b(MOTION|ORDER|NOTICE|EVIDENCE|APPLICATION|BRIEF|DECLARATION|EXHIBIT|SUBMISSION)\b` (re.I). -/
def keywordRE : RE :=
  reSeq [.bnd,
         reAlts [.litCI (lc "motion"), .litCI (lc "order"), .litCI (lc "notice"),
                 .litCI (lc "evidence"), .litCI (lc "application"),
                 .litCI (lc "brief"), .litCI (lc "declaration"),
                 .litCI (lc "exhibit"), .litCI (lc "submission")],
         .bnd]

def kwMatch (ln : List Char) : Bool := (searchFrom keywordRE none ln).isSome

def lettersOf (ln : List Char) : List Char := ln.filter isAlphaCh

/-! #### IEEE binary64 arithmetic for the score

The score is computed by the program in Python floats: an `int/int`
true division (correctly rounded to binary64), the literal `0.15`
(the binary64 nearest 3/20), and a float `+` that rounds the exact
sum.  Each finite nonnegative double is modelled by the exact
rational it denotes, written as a dyadic pair `(m, s)` for `m / 2^s`,
so that `<` on scores coincides with the float comparison.  All
rounding is round-to-nearest, ties to even. -/

/-- floor(log₂ n) by fuelled halving; total and kernel-evaluable
(the fuel `n` dominates the number of halvings). -/
def log2fuel : Nat → Nat → Nat
  | 0, _ => 0
  | fuel+1, n => if n ≤ 1 then 0 else log2fuel fuel (n / 2) + 1

def flog2 (n : Nat) : Nat := log2fuel n n

/-- Round `num/den` (`den ≠ 0`) to the nearest integer, ties going to
the even neighbour. -/
def rne (num den : Nat) : Nat :=
  let q := num / den
  let r := num % den
  if 2 * r < den then q
  else if den < 2 * r then q + 1
  else if q % 2 = 0 then q else q + 1

/-- floor(log₂ (a/b)) for `a, b ≥ 1`: the quotient lies in
`(2^(d-1), 2^(d+1))` for `d = flog2 a - flog2 b`, and one comparison
settles which of `d-1`, `d` it is. -/
def floorLog2 (a b : Nat) : Int :=
  let d : Int := (flog2 a : Int) - (flog2 b : Int)
  let ge : Bool :=
    if 0 ≤ d then decide (b * 2 ^ d.toNat ≤ a) else decide (b ≤ a * 2 ^ (-d).toNat)
  if ge then d else d - 1

/-- The binary64 value nearest `a/b` (round-to-nearest-even), as a
dyadic pair: 53 significant bits for normal values, the fixed scale
`2^1074` below `2^(-1022)` (subnormals).  The overflow threshold
`2^1024` is unreachable here: every value the program rounds lies in
`[0, 1.15]`. -/
def flSig (a b : Nat) : Nat × Nat :=
  if a = 0 then (0, 0)
  else
    let E := floorLog2 a b
    let s : Int := if E < -1022 then 1074 else 52 - E
    if 0 ≤ s then (rne (a * 2 ^ s.toNat) b, s.toNat)
    else (rne a (b * 2 ^ (-s).toNat) * 2 ^ (-s).toNat, 0)

/-- Float addition: round the exact sum of the two dyadic values. -/
def addRnd (x y : Nat × Nat) : Nat × Nat :=
  flSig (x.1 * 2 ^ y.2 + y.1 * 2 ^ x.2) (2 ^ (x.2 + y.2))

/-- The binary64 value of the literal `0.15`:
5404319552844595 / 2^55. -/
def c15F : Nat × Nat := flSig 15 100

/-- The rational a dyadic pair denotes. -/
def qOf (x : Nat × Nat) : ℚ := (x.1 : ℚ) / 2 ^ x.2

/-- Score of a candidate line: the correctly rounded double of
upper/letters (with the source's `if len(letters) else 0` guard),
plus — in float addition — the 0.15 double if a keyword matches. -/
def lineScore (ln : List Char) : ℚ :=
  qOf (addRnd
    (if (lettersOf ln).length = 0 then (0, 0)
     else flSig ((lettersOf ln).countP isUpperCh) (lettersOf ln).length)
    (if kwMatch ln then c15F else (0, 0)))

/-- A line is examined at all iff it is long enough and has a letter. -/
def qualLine (ln : List Char) : Bool := 8 ≤ ln.length && !(lettersOf ln).isEmpty

def scanBest : List (List Char) → List Char → ℚ → List Char
  | [], cand, _ => cand
  | ln :: rest, cand, best =>
    if ln.length < 8 then scanBest rest cand best
    else if (lettersOf ln).isEmpty then scanBest rest cand best
    else if best < lineScore ln then scanBest rest ln (lineScore ln)
    else scanBest rest cand best

/-- The stripped non-blank lines of the text. -/
def linesOf (text : List Char) : List (List Char) :=
  ((splitLinesPy text).map stripChars).filter (fun l => !l.isEmpty)

/-- `guess_pleading_name_from_text` of `src/app/main.py`. -/
def guess_pleading_name_from_text (s : String) : String :=
  if s.data.isEmpty then "" else ⟨scanBest ((linesOf s.data).take 60) [] 0⟩

/-! ### `sanitize` and `build_new_filename` -/

/-- Per-character effect of the chain of `str.replace` calls.  Each
pattern is a single character and no replacement contains any later
pattern, so the sequential replaces equal one left-to-right pass. -/
def sanCh (c : Char) : List Char :=
  if c = '/' then ['-'] else if c = '\\' then ['-']
  else if c = ':' then [' ', '-', ' ']
  else if c = '*' then [] else if c = '?' then []
  else if c = '"' then ['\''] else if c = '<' then ['(']
  else if c = '>' then [')'] else if c = '|' then ['-'] else [c]

/-- First half of `re.sub(r"\s+", " ", s)`: every whitespace
character becomes a plain space. -/
def wsTo1 (l : List Char) : List Char :=
  l.map fun c => if isSpaceCh c then ' ' else c

/-- Second half: collapse adjacent spaces. -/
def squeeze : List Char → List Char
  | [] => []
  | [c] => [c]
  | a :: b :: r =>
    if a = ' ' && b = ' ' then squeeze (b :: r) else a :: squeeze (b :: r)

def sanitizeCore (l : List Char) : List Char :=
  stripChars (squeeze (wsTo1 (l.flatMap sanCh)))

/-- `sanitize` of `src/app/main.py`. -/
def sanitize (s : String) : String :=
  if s.data.isEmpty then "" else ⟨sanitizeCore s.data⟩

/-- `build_new_filename` of `src/app/main.py`. -/
def build_new_filename (label pleading_name file_date notes : String) : String :=
  let parts : List String :=
    (if label.data.isEmpty then [] else [sanitize label]) ++
    (if pleading_name.data.isEmpty then [] else [sanitize pleading_name]) ++
    (if file_date.data.isEmpty then [] else [parse_date_any file_date]) ++
    (if notes.data.isEmpty then [] else [sanitize notes])
  let joined := String.intercalate " - " parts
  (if joined.data.isEmpty then "ECAS_Document" else joined) ++ ".pdf"

/-! ### Collision resolution (`download_case_docs`, lines 252-257)

`final_path.stem` / `final_path.suffix` follow `pathlib`: the suffix
starts at the last dot provided that dot is neither the first nor the
last character of the name. -/

def lastDotIdx (l : List Char) : Option Nat :=
  match l.reverse.findIdx? (fun c => c = '.') with
  | some j => some (l.length - 1 - j)
  | none => none

def splitExt (name : List Char) : List Char × List Char :=
  match lastDotIdx name with
  | some i =>
    if 0 < i && i + 1 < name.length then (name.take i, name.drop i) else (name, [])
  | none => (name, [])

/-- `final_path.stem + f" ({i})" + final_path.suffix`. -/
def bumpName (cand : List Char) (i : Nat) : List Char :=
  (splitExt cand).1 ++ (' ' :: '(' :: (natChars i ++ [')'])) ++ (splitExt cand).2

/-- The `while final_path.exists()` loop.  The fuel `dir.length + 1`
is sufficient: successive candidates strictly grow in length, so they
are pairwise distinct and one of the first `dir.length + 1` is free. -/
def resolveLoop (dir : List String) : Nat → List Char → Nat → List Char
  | 0, cand, _ => cand
  | fuel + 1, cand, i =>
    if (⟨cand⟩ : String) ∈ dir then resolveLoop dir fuel (bumpName cand i) (i + 1)
    else cand

def resolveName (dir : List String) (name : String) : String :=
  ⟨resolveLoop dir (dir.length + 1) name.data 2⟩

/-! ### Calendar traversal (`iterate_hearings_collect_anums`)

The Selenium environment is abstracted to the observable data the
loop consumes: a sequence of calendar pages, each carrying for every
day cell either the hearing-popup text (when the required popup wait
succeeded) or nothing (the per-cell `except: continue` path), and
whether clicking the "next month" control succeeds on that page.
Running past the end of the page list likewise models a failing
"next" control. -/

structure CalPage where
  cells : List (Option String)
  hasNext : Bool

/-- `Hearing Date:\s*([^\n]+)` (re.I). -/
def hearingDateRE : RE :=
  reSeq [.litCI (lc "hearing date:"), .rep isSpaceCh 0 none,
         .grp (.rep (fun c => c ≠ '\n') 1 none)]

/-- `date_match.group(1).strip() if date_match else ""`. -/
def theDateOf (text : List Char) : List Char :=
  match searchFrom hearingDateRE none text with
  | some m =>
    match m.2.2 with
    | some g => stripChars g
    | none => []
  | none => []

def sepSharp (c : Char) : Bool := c = '#' || c = '-' || isSpaceCh c
def sepDash (c : Char) : Bool := c = '-' || isSpaceCh c

/-- `A[#\-\s]*\s*(\d{3}[-\s]?\d{3}[-\s]?\d{3})` (case sensitive). -/
def anumRE : RE :=
  reSeq [.litCS ['A'], .rep sepSharp 0 none, .rep isSpaceCh 0 none,
         .grp (reSeq [.rep isDigitCh 3 (some 3), .rep sepDash 0 (some 1),
                      .rep isDigitCh 3 (some 3), .rep sepDash 0 (some 1),
                      .rep isDigitCh 3 (some 3)])]

/-- `re.findall` group-1 captures, each passed through
`re.sub(r"[^0-9]", "", ·)`. -/
def anumsOf (text : List Char) : List String :=
  (findIter anumRE text).filterMap fun m =>
    match m.2 with
    | some g => some (⟨g.filter isDigitCh⟩ : String)
    | none => none

/-- `datetime.date`, compared lexicographically. -/
structure HDate where
  y : Nat
  m : Nat
  d : Nat
deriving DecidableEq

def hdLE (a b : HDate) : Bool :=
  a.y < b.y || (a.y = b.y && (a.m < b.m || (a.m = b.m && a.d ≤ b.d)))

/-- `datetime.strptime(the_date, "%m/%d/%Y").date()`, strict. -/
def parsePopupDate (text : List Char) : Option HDate :=
  match strptimeMDY (theDateOf text) with
  | some v => some ⟨v.1, v.2.1, v.2.2⟩
  | none => none

/-- Lines 193-204: extract the hearing date; on parse failure the
cell stays in range; collect the identifiers if in range. -/
def cellAnums (sd ed : HDate) (text : List Char) : List String :=
  match parsePopupDate text with
  | some dt => if hdLE sd dt && hdLE dt ed then anumsOf text else []
  | none => anumsOf text

def collectCell (sd ed : HDate) : Option String → List String
  | none => []
  | some t => cellAnums sd ed t.data

/-- The `while months_checked < 60` loop. -/
def pagesLoop (sd ed : HDate) : Nat → List CalPage → List String → List String
  | 0, _, acc => acc
  | _ + 1, [], acc => acc
  | fuel + 1, p :: rest, acc =>
    let acc' := acc ++ p.cells.flatMap (collectCell sd ed)
    if p.hasNext then pagesLoop sd ed fuel rest acc' else acc'

/-- Python string comparison: lexicographic on code points. -/
def lexLE : List Char → List Char → Bool
  | [], _ => true
  | _ :: _, [] => false
  | a :: as, b :: bs => if a < b then true else if b < a then false else lexLE as bs

def strLEb (a b : String) : Bool := lexLE a.data b.data

/-- `iterate_hearings_collect_anums` of `src/app/main.py`:
`sorted(a_numbers)` of the accumulated set is the ascending sort of
the deduplicated collection. -/
def iterate_hearings_collect_anums (sd ed : HDate) (pages : List CalPage) :
    List String :=
  List.insertionSort (fun a b => strLEb a b = true) (dkf (pagesLoop sd ed 60 pages []))

/-! ### Case document harvester (`download_case_docs`)

Environment abstraction: a `DocRow` carries what the loop reads from
the row (`label`, `fileDate`), whether a download button is present,
the new `*.pdf` names the bounded 120-second poll observes in the
download directory (`polled`; the poll's set difference is taken
against the directory listing, so `[]` — or nothing genuinely new —
models the timeout), and the text the external PDF reader returns
for the downloaded file.  `dir` is the directory's `*.pdf` listing;
every name the collision loop tests with `.exists()` ends in `.pdf`,
so only this listing is relevant.  A row whose reads raise is simply
absent (the per-row `except` path appends nothing). -/

structure DocRow where
  label : String
  fileDate : String
  hasBtn : Bool
  polled : List String
  pageText : String

structure LogRecord where
  aNumber : String
  docLabel : String
  pleading : String
  filingDate : String
  relDates : String
  finalFilename : String
deriving DecidableEq

structure HarvestSt where
  dir : List String
  logs : List LogRecord
deriving DecidableEq

def upperStr (s : String) : String := ⟨s.data.map upCh⟩

/-- One iteration of the row loop (lines 228-268). -/
def stepRow (anum : String) (st : HarvestSt) (r : DocRow) : HarvestSt :=
  if !r.hasBtn then st else
  let newFiles := (dkf r.polled).filter (fun n => !(st.dir.contains n))
  match newFiles with
  | [] => st
  | f :: _ =>
    let dirNow := st.dir ++ newFiles
    let pleading := guess_pleading_name_from_text r.pageText
    let notes :=
      if containsSub (upperStr r.label).data (lc "ORDER") then
        extract_relevant_dates_text r.pageText
      else ""
    let newname := build_new_filename r.label pleading r.fileDate notes
    let final := resolveName dirNow newname
    { dir := (dirNow.erase f) ++ [final],
      logs := st.logs ++ [⟨anum, r.label, pleading, r.fileDate, notes, final⟩] }

/-- `download_case_docs` of `src/app/main.py` for one case. -/
def download_case_docs (anum : String) (rows : List DocRow) (st : HarvestSt) :
    HarvestSt :=
  rows.foldl (stepRow anum) st

/-- The run loop of `main`: one `download_case_docs` per identifier,
threading the directory and the log sequence. -/
def harvestCases (cases : List (String × List DocRow)) (st : HarvestSt) : HarvestSt :=
  cases.foldl (fun s c => download_case_docs c.1 c.2 s) st

/-! ### Helper lemmas: deduplication, sorting order, membership -/

theorem mem_dkf {x : String} : ∀ {l : List String}, x ∈ dkf l ↔ x ∈ l
  | [] => Iff.rfl
  | y :: ys => by
    simp only [dkf, List.mem_cons, List.mem_filter]
    constructor
    · rintro (rfl | ⟨h, _⟩)
      · exact .inl rfl
      · exact .inr (mem_dkf.mp h)
    · rintro (rfl | h)
      · exact .inl rfl
      · by_cases hx : x = y
        · exact .inl hx
        · exact .inr ⟨mem_dkf.mpr h, by simpa using hx⟩

theorem dkf_nodup : ∀ l : List String, (dkf l).Nodup
  | [] => List.nodup_nil
  | y :: ys => by
    refine List.nodup_cons.mpr ⟨fun hy => ?_, (dkf_nodup ys).filter _⟩
    have := (List.mem_filter.mp hy).2
    simp at this

theorem lexLE_total : ∀ a b : List Char, lexLE a b = true ∨ lexLE b a = true
  | [], _ => .inl rfl
  | _ :: _, [] => .inr rfl
  | a :: as, b :: bs => by
    rcases lt_trichotomy a b with h | h | h
    · left; simp [lexLE, h]
    · subst h
      rcases lexLE_total as bs with h' | h'
      · left; simp [lexLE, lt_irrefl, h']
      · right; simp [lexLE, lt_irrefl, h']
    · right; simp [lexLE, h]

theorem lexLE_trans : ∀ a b c : List Char,
    lexLE a b = true → lexLE b c = true → lexLE a c = true
  | [], _, _, _, _ => rfl
  | _ :: _, [], _, h, _ => by simp [lexLE] at h
  | _ :: _, _ :: _, [], _, h => by simp [lexLE] at h
  | a :: as, b :: bs, c :: cs, hab, hbc => by
    simp only [lexLE] at hab hbc ⊢
    by_cases h1 : a < b
    · by_cases h2 : b < c
      · simp [lt_trans h1 h2]
      · by_cases h2' : c < b
        · simp [h2, h2'] at hbc
        · have hbc' : b = c := le_antisymm (not_lt.mp h2') (not_lt.mp h2)
          subst hbc'
          simp [h1]
    · by_cases h1' : b < a
      · simp [h1, h1'] at hab
      · have hab' : a = b := le_antisymm (not_lt.mp h1') (not_lt.mp h1)
        subst hab'
        by_cases h2 : a < c
        · simp [h2]
        · by_cases h2' : c < a
          · simp [h2, h2'] at hbc
          · have hce : a = c := le_antisymm (not_lt.mp h2') (not_lt.mp h2)
            subst hce
            simp only [lt_irrefl, if_false, if_neg] at hab hbc ⊢
            exact lexLE_trans _ _ _ hab hbc

theorem strLE_total : ∀ a b : String, strLEb a b = true ∨ strLEb b a = true :=
  fun a b => lexLE_total a.data b.data

theorem strLE_trans {a b c : String} :
    strLEb a b = true → strLEb b c = true → strLEb a c = true :=
  lexLE_trans a.data b.data c.data

theorem mem_stripChars {x : Char} {l : List Char} (h : x ∈ stripChars l) : x ∈ l := by
  unfold stripChars at h
  rw [List.mem_reverse] at h
  have h1 := List.dropWhile_sublist (l := (l.dropWhile isSpaceCh).reverse) (p := isSpaceCh)
  have h2 := h1.mem h
  rw [List.mem_reverse] at h2
  exact (List.dropWhile_sublist _).mem h2

theorem mem_squeeze {x : Char} : ∀ {l : List Char}, x ∈ squeeze l → x ∈ l
  | [], h => by simp [squeeze] at h
  | [c], h => by simpa [squeeze] using h
  | a :: b :: r, h => by
    rw [squeeze] at h
    by_cases hab : a = ' ' && b = ' '
    · rw [if_pos hab] at h
      exact List.mem_cons_of_mem _ (mem_squeeze h)
    · rw [if_neg hab] at h
      rcases List.mem_cons.mp h with rfl | h'
      · exact List.mem_cons_self _ _
      · exact List.mem_cons_of_mem _ (mem_squeeze h')

/-! ### Regex engine lemmas -/

theorem mem_mtch_seq {a b : RE} {prev : Option Char} {s : List Char}
    {x : List Char × List Char × Option (List Char)} :
    x ∈ mtch (.seq a b) prev s ↔
      ∃ u ∈ mtch a prev s, ∃ v ∈ mtch b (u.1.getLast? <|> prev) u.2.1,
        x = (u.1 ++ v.1, v.2.1, u.2.2 <|> v.2.2) := by
  simp only [mtch, List.mem_flatMap, List.mem_map]
  constructor
  · rintro ⟨u, hu, v, hv, rfl⟩
    exact ⟨u, hu, v, hv, rfl⟩
  · rintro ⟨u, hu, v, hv, rfl⟩
    exact ⟨u, hu, v, hv, rfl⟩

theorem mem_mtch_grp {a : RE} {prev : Option Char} {s : List Char}
    {x : List Char × List Char × Option (List Char)} :
    x ∈ mtch (.grp a) prev s ↔ ∃ u ∈ mtch a prev s, x = (u.1, u.2.1, some u.1) := by
  simp only [mtch, List.mem_map]
  constructor
  · rintro ⟨u, hu, rfl⟩; exact ⟨u, hu, rfl⟩
  · rintro ⟨u, hu, rfl⟩; exact ⟨u, hu, rfl⟩

theorem mtch_litCS_cap {w : List Char} {prev : Option Char} {s : List Char}
    {x : List Char × List Char × Option (List Char)}
    (h : x ∈ mtch (.litCS w) prev s) : x.2.2 = none := by
  rw [mtch] at h
  split at h
  · rcases List.mem_singleton.mp h with rfl; rfl
  · cases h

theorem repTake_shape {p : Char → Bool} {s : List Char} {top j mn : Nat}
    (htople : top ≤ (s.takeWhile p).length) (hj : j < top + 1 - mn) :
    mn ≤ (s.take (top - j)).length ∧ (s.take (top - j)).length ≤ top ∧
      ∀ c ∈ s.take (top - j), p c = true := by
  have hrunle : (s.takeWhile p).length ≤ s.length := (List.takeWhile_sublist p).length_le
  have hlen : (s.take (top - j)).length = top - j := by
    rw [List.length_take]; omega
  refine ⟨by omega, by omega, fun c hc => ?_⟩
  have hsplit : s = s.takeWhile p ++ s.dropWhile p :=
    (List.takeWhile_append_dropWhile p s).symm
  rw [hsplit, List.take_append_of_le_length (by omega)] at hc
  exact List.mem_takeWhile_imp (List.take_subset _ _ hc)

theorem mem_mtch_rep {p : Char → Bool} {mn : Nat} {mx : Option Nat}
    {prev : Option Char} {s : List Char}
    {x : List Char × List Char × Option (List Char)}
    (h : x ∈ mtch (.rep p mn mx) prev s) :
    x.2.2 = none ∧ mn ≤ x.1.length ∧ (∀ m, mx = some m → x.1.length ≤ m) ∧
      ∀ c ∈ x.1, p c = true := by
  rw [mtch] at h
  rcases List.mem_map.mp h with ⟨y, hy, rfl⟩
  unfold repCand at hy
  cases mx with
  | none =>
    simp only at hy
    split at hy
    next hle =>
      rcases List.mem_map.mp hy with ⟨j, hj, rfl⟩
      rw [List.mem_range] at hj
      have hs := repTake_shape (p := p) (s := s) le_rfl hj
      refine ⟨rfl, hs.1, ?_, hs.2.2⟩
      intro m hm
      cases hm
    next => cases hy
  | some m =>
    simp only at hy
    split at hy
    next hle =>
      rcases List.mem_map.mp hy with ⟨j, hj, rfl⟩
      rw [List.mem_range] at hj
      have hs := repTake_shape (p := p) (s := s) (Nat.min_le_right _ _) hj
      refine ⟨rfl, hs.1, fun m' hm' => ?_, hs.2.2⟩
      rcases Option.some.inj hm' with rfl
      exact le_trans hs.2.1 (Nat.min_le_left _ _)
    next => cases hy

theorem space_not_digit {c : Char} (h : isSpaceCh c = true) : isDigitCh c = false := by
  unfold isSpaceCh at h
  simp only [Bool.or_eq_true, decide_eq_true_eq] at h
  rcases h with ((((h | h) | h) | h) | h) | h <;> subst h <;> decide

theorem sepDash_not_digit {c : Char} (h : sepDash c = true) : isDigitCh c = false := by
  unfold sepDash at h
  simp only [Bool.or_eq_true, decide_eq_true_eq] at h
  rcases h with h | h
  · subst h; decide
  · exact space_not_digit h

/-- Any capture of the identifier pattern has exactly nine digit
characters once formatting is stripped. -/
theorem anum_capture {prev : Option Char} {s : List Char}
    {x : List Char × List Char × Option (List Char)}
    (h : x ∈ mtch anumRE prev s) {g : List Char} (hg : x.2.2 = some g) :
    (g.filter isDigitCh).length = 9 := by
  unfold anumRE reSeq at h
  rcases mem_mtch_seq.mp h with ⟨u1, hu1, v1, hv1, rfl⟩
  rcases mem_mtch_seq.mp hv1 with ⟨u2, hu2, v2, hv2, rfl⟩
  rcases mem_mtch_seq.mp hv2 with ⟨u3, hu3, v3, hv3, rfl⟩
  rcases mem_mtch_grp.mp hv3 with ⟨w, hw, rfl⟩
  have h1 := mtch_litCS_cap hu1
  have h2 := (mem_mtch_rep hu2).1
  have h3 := (mem_mtch_rep hu3).1
  simp only [h1, h2, h3] at hg
  simp only [Option.none_orElse] at hg
  rcases Option.some.inj hg with rfl
  rcases mem_mtch_seq.mp hw with ⟨d1, hd1, r1, hr1, rfl⟩
  rcases mem_mtch_seq.mp hr1 with ⟨s1, hs1, r2, hr2, rfl⟩
  rcases mem_mtch_seq.mp hr2 with ⟨d2, hd2, r3, hr3, rfl⟩
  rcases mem_mtch_seq.mp hr3 with ⟨s2, hs2, d3, hd3, rfl⟩
  have hD1 := mem_mtch_rep hd1
  have hS1 := mem_mtch_rep hs1
  have hD2 := mem_mtch_rep hd2
  have hS2 := mem_mtch_rep hs2
  have hD3 := mem_mtch_rep hd3
  have e1 : d1.1.filter isDigitCh = d1.1 := List.filter_eq_self.mpr hD1.2.2.2
  have e2 : d2.1.filter isDigitCh = d2.1 := List.filter_eq_self.mpr hD2.2.2.2
  have e3 : d3.1.filter isDigitCh = d3.1 := List.filter_eq_self.mpr hD3.2.2.2
  have f1 : s1.1.filter isDigitCh = [] :=
    List.filter_eq_nil_iff.mpr fun c hc => by
      simp [sepDash_not_digit (hS1.2.2.2 c hc)]
  have f2 : s2.1.filter isDigitCh = [] :=
    List.filter_eq_nil_iff.mpr fun c hc => by
      simp [sepDash_not_digit (hS2.2.2.2 c hc)]
  have l1 : d1.1.length = 3 := le_antisymm (hD1.2.2.1 3 rfl) hD1.2.1
  have l2 : d2.1.length = 3 := le_antisymm (hD2.2.2.1 3 rfl) hD2.2.1
  have l3 : d3.1.length = 3 := le_antisymm (hD3.2.2.1 3 rfl) hD3.2.1
  simp [List.filter_append, e1, e2, e3, f1, f2, l1, l2, l3]

theorem findIterAux_succ (r : RE) (fuel : Nat) (prev : Option Char) (s : List Char) :
    findIterAux r (fuel + 1) prev s =
      match mtch r prev s with
      | m :: _ =>
        (m.1, m.2.2) ::
          (match m.1 with
           | [] =>
             match s with
             | [] => []
             | c :: rest => findIterAux r fuel (some c) rest
           | _ => findIterAux r fuel (m.1.getLast? <|> prev) m.2.1)
      | [] =>
        match s with
        | [] => []
        | c :: rest => findIterAux r fuel (some c) rest := rfl

theorem mem_findIterAux {r : RE} : ∀ (fuel : Nat) (prev : Option Char)
    (s : List Char) (m : List Char × Option (List Char)),
    m ∈ findIterAux r fuel prev s →
    ∃ prev' s' x, x ∈ mtch r prev' s' ∧ m = (x.1, x.2.2)
  | 0, prev, s, m, h => by simp [findIterAux] at h
  | fuel + 1, prev, s, m, h => by
    rw [findIterAux_succ] at h
    split at h
    case h_1 x rest heq =>
      rcases List.mem_cons.mp h with rfl | h'
      · exact ⟨prev, s, x, by rw [heq]; exact List.mem_cons_self _ _, rfl⟩
      · split at h'
        · split at h'
          · cases h'
          · exact mem_findIterAux fuel _ _ m h'
        · exact mem_findIterAux fuel _ _ m h'
    case h_2 heq =>
      split at h
      · cases h
      · exact mem_findIterAux fuel _ _ m h

/-- Every identifier extracted from a popup text is a nine-digit
string. -/
theorem anumsOf_shape {text : List Char} {x : String} (h : x ∈ anumsOf text) :
    x.data.length = 9 ∧ x.data.all isDigitCh = true := by
  unfold anumsOf findIter at h
  rcases List.mem_filterMap.mp h with ⟨m, hm, hsome⟩
  rcases mem_findIterAux _ _ _ _ hm with ⟨prev', s', y, hy, rfl⟩
  cases hcap : y.2.2 with
  | none => rw [hcap] at hsome; cases hsome
  | some g =>
    rw [hcap] at hsome
    rcases Option.some.inj hsome with rfl
    refine ⟨anum_capture hy hcap, ?_⟩
    rw [List.all_eq_true]
    intro c hc
    exact (List.mem_filter.mp hc).2

/-! ### Traversal lemmas -/

theorem mem_cellAnums {sd ed : HDate} {t : List Char} {x : String}
    (h : x ∈ cellAnums sd ed t) : x ∈ anumsOf t := by
  unfold cellAnums at h
  split at h
  · split at h
    · exact h
    · cases h
  · exact h

theorem mem_collectCell {sd ed : HDate} {c : Option String} {x : String}
    (h : x ∈ collectCell sd ed c) : ∃ t, x ∈ anumsOf t := by
  cases c with
  | none => cases h
  | some t => exact ⟨t.data, mem_cellAnums h⟩

theorem mem_pagesLoop {sd ed : HDate} : ∀ (fuel : Nat) (pages : List CalPage)
    (acc : List String) (x : String), x ∈ pagesLoop sd ed fuel pages acc →
    x ∈ acc ∨ ∃ t, x ∈ anumsOf t
  | 0, _, acc, x, h => .inl h
  | _ + 1, [], acc, x, h => .inl h
  | fuel + 1, p :: rest, acc, x, h => by
    rw [pagesLoop] at h
    have hacc : ∀ y, y ∈ acc ++ p.cells.flatMap (collectCell sd ed) →
        y ∈ acc ∨ ∃ t, y ∈ anumsOf t := by
      intro y hy
      rcases List.mem_append.mp hy with hy | hy
      · exact .inl hy
      · rcases List.mem_flatMap.mp hy with ⟨c, _, hc⟩
        exact .inr (mem_collectCell hc)
    by_cases hn : p.hasNext
    · rw [if_pos hn] at h
      rcases mem_pagesLoop fuel rest _ x h with h' | h'
      · exact hacc x h'
      · exact .inr h'
    · rw [if_neg hn] at h
      exact hacc x h

theorem pagesLoop_take {sd ed : HDate} : ∀ (fuel : Nat) (pages : List CalPage)
    (acc : List String),
    pagesLoop sd ed fuel pages acc = pagesLoop sd ed fuel (pages.take fuel) acc
  | 0, _, _ => rfl
  | _ + 1, [], _ => rfl
  | fuel + 1, p :: rest, acc => by
    rw [List.take_succ_cons, pagesLoop, pagesLoop]
    by_cases hn : p.hasNext
    · rw [if_pos hn, if_pos hn]
      exact pagesLoop_take fuel rest _
    · rw [if_neg hn, if_neg hn]

/-! ### Claims C6, C7, C9 -/

/-- C6: for any date range and any sequence of hearing-popup texts
visited, the identifier collection returned by the calendar traversal
is sorted (Python string order: lexicographic on code points),
contains no duplicates, and every member is a string of digit
characters of total length exactly 9. -/
theorem C6_identifier_set_shape (sd ed : HDate) (pages : List CalPage) :
    List.Sorted (fun a b => strLEb a b = true)
        (iterate_hearings_collect_anums sd ed pages) ∧
      (iterate_hearings_collect_anums sd ed pages).Nodup ∧
      ∀ x ∈ iterate_hearings_collect_anums sd ed pages,
        x.data.length = 9 ∧ x.data.all isDigitCh = true := by
  letI : IsTrans String (fun a b => strLEb a b = true) :=
    ⟨fun a b c hab hbc => strLE_trans hab hbc⟩
  letI : IsTotal String (fun a b => strLEb a b = true) := ⟨strLE_total⟩
  refine ⟨List.sorted_insertionSort _ _, ?_, ?_⟩
  · exact (List.perm_insertionSort _ _).nodup_iff.mpr (dkf_nodup _)
  · intro x hx
    unfold iterate_hearings_collect_anums at hx
    rw [List.mem_insertionSort] at hx
    rcases mem_pagesLoop 60 pages [] x (mem_dkf.mp hx) with h | ⟨t, ht⟩
    · cases h
    · exact anumsOf_shape ht

/-- C7: whenever the "Hearing Date:" value of a popup text fails to
parse as month/day/year (including a missing Hearing Date line), the
cell is treated as in range, so its identifiers are collected
regardless of the caller-supplied date range. -/
theorem C7_unparseable_date_in_range (text : List Char)
    (h : parsePopupDate text = none) (sd ed : HDate) :
    cellAnums sd ed text = anumsOf text := by
  unfold cellAnums
  rw [h]

theorem C7_witness :
    parsePopupDate (lc "Hearing Date: TBD\nA# 123-456-789") = none ∧
      cellAnums ⟨2024, 1, 1⟩ ⟨2024, 1, 2⟩ (lc "Hearing Date: TBD\nA# 123-456-789") =
        anumsOf (lc "Hearing Date: TBD\nA# 123-456-789") :=
  ⟨rfl, C7_unparseable_date_in_range (lc "Hearing Date: TBD\nA# 123-456-789") rfl
    ⟨2024, 1, 1⟩ ⟨2024, 1, 2⟩⟩

/-- C9: the traversal terminates for every environment (it is a total
function of the page sequence); it processes at most the first 60
pages, and when the "next" control is absent on the first page it
returns just that page's identifiers. -/
theorem C9_bounded_traversal :
    (∀ (sd ed : HDate) (pages : List CalPage),
        iterate_hearings_collect_anums sd ed pages =
          iterate_hearings_collect_anums sd ed (pages.take 60)) ∧
      ∀ (sd ed : HDate) (p : CalPage) (rest : List CalPage),
        p.hasNext = false →
        iterate_hearings_collect_anums sd ed (p :: rest) =
          iterate_hearings_collect_anums sd ed [p] := by
  constructor
  · intro sd ed pages
    unfold iterate_hearings_collect_anums
    rw [pagesLoop_take 60 pages]
  · intro sd ed p rest h
    unfold iterate_hearings_collect_anums
    have e1 : pagesLoop sd ed 60 (p :: rest) [] =
        [] ++ p.cells.flatMap (collectCell sd ed) := by
      rw [show (60 : Nat) = 59 + 1 from rfl, pagesLoop, if_neg (by simp [h])]
    have e2 : pagesLoop sd ed 60 [p] [] =
        [] ++ p.cells.flatMap (collectCell sd ed) := by
      rw [show (60 : Nat) = 59 + 1 from rfl, pagesLoop, if_neg (by simp [h])]
    rw [e1, e2]

theorem C9_witness :
    (⟨[some "A# 123-456-789"], false⟩ : CalPage).hasNext = false ∧
      iterate_hearings_collect_anums ⟨2024, 1, 1⟩ ⟨2024, 12, 31⟩
          [⟨[some "A# 123-456-789"], false⟩, ⟨[some "A# 999-000-111"], true⟩] =
        iterate_hearings_collect_anums ⟨2024, 1, 1⟩ ⟨2024, 12, 31⟩
          [⟨[some "A# 123-456-789"], false⟩] :=
  ⟨rfl, C9_bounded_traversal.2 _ _ _ _ rfl⟩

/-! ### Claim C3 -/

/-- C3 counterexample: on a text containing both phrases of the
claim, the code returns only the HEARING finding — the phrase
"deadline is set for" does not match the DEADLINE pattern
`deadline(?:s)?\s+(?:set|is|are)\s+(?:for|on)\s+...`, which expects a
single word from {set, is, are} directly before {for, on}. -/
theorem C3_counterexample :
    containsSub (lc "Hearing set for March 5, 2024. The deadline is set for 3/10/2024.")
        (lc "Hearing set for March 5, 2024") = true ∧
      containsSub (lc "Hearing set for March 5, 2024. The deadline is set for 3/10/2024.")
        (lc "deadline is set for 3/10/2024") = true ∧
      extract_relevant_dates_text
          "Hearing set for March 5, 2024. The deadline is set for 3/10/2024." ≠
        "HEARING 03-05-2024 ; DEADLINE 03-10-2024" :=
  ⟨rfl, rfl, by decide⟩

/-- C3 amended: with the phrasing "deadline set for 3/10/2024" (which
the DEADLINE pattern does accept) the extractor returns exactly
`"HEARING 03-05-2024 ; DEADLINE 03-10-2024"`, in pattern-list order;
with the claim's phrasing "deadline is set for" only the HEARING
finding is produced; and duplicate label+date findings are removed
keeping the first occurrence. -/
theorem C3_amended_extraction :
    extract_relevant_dates_text
        "Hearing set for March 5, 2024. The deadline set for 3/10/2024." =
      "HEARING 03-05-2024 ; DEADLINE 03-10-2024" ∧
    extract_relevant_dates_text
        "Hearing set for March 5, 2024. The deadline is set for 3/10/2024." =
      "HEARING 03-05-2024" ∧
    extract_relevant_dates_text
        "hearing set for 3/5/2024 and hearing set on 3/5/2024" =
      "HEARING 03-05-2024" :=
  ⟨rfl, rfl, rfl⟩

/-! ### Collision-resolution lemmas -/

theorem splitExt_len (name : List Char) :
    (splitExt name).1.length + (splitExt name).2.length = name.length := by
  rcases hld : lastDotIdx name with _ | i
  · simp [splitExt, hld]
  · simp only [splitExt, hld]
    split
    · simp only [List.length_take, List.length_drop]
      omega
    · simp

theorem bumpName_len (cand : List Char) (i : Nat) :
    cand.length < (bumpName cand i).length := by
  unfold bumpName
  have := splitExt_len cand
  simp only [List.length_append, List.length_cons]
  omega

/-! ### Claim C2 -/

/-- C2 counterexample: with `X.pdf` and `X (2).pdf` both present, the
resolved name is not `X (3).pdf`: the loop rebuilds each candidate
from the stem of the *previous candidate*, so the suffixes nest. -/
theorem C2_counterexample :
    resolveName ["X.pdf", "X (2).pdf"] "X.pdf" = "X (2) (3).pdf" ∧
      resolveName ["X.pdf", "X (2).pdf"] "X.pdf" ≠ "X (3).pdf" :=
  ⟨rfl, by decide⟩

/-- C2 amended: `buildFilename` produces the expected joined name; a
single collision appends `" (2)"` before the extension; but on a
second collision the counter is appended to the stem of the previous
candidate, so the resolved name carries nested suffixes — with the
base name and its `" (2)"` variant present the result is the base
stem followed by `" (2) (3)"`, not `" (3)"`. -/
theorem C2_amended_collision :
    build_new_filename "Order" "NOTICE OF HEARING" "2024-03-05" "" =
        "Order - NOTICE OF HEARING - 03-05-2024.pdf" ∧
      (∀ (dir : List String) (name : String), name ∈ dir →
        (⟨bumpName name.data 2⟩ : String) ∉ dir →
        resolveName dir name = ⟨bumpName name.data 2⟩) ∧
      ∀ (dir : List String) (name : String), name ∈ dir →
        (⟨bumpName name.data 2⟩ : String) ∈ dir →
        (⟨bumpName (bumpName name.data 2) 3⟩ : String) ∉ dir →
        resolveName dir name = ⟨bumpName (bumpName name.data 2) 3⟩ := by
  refine ⟨rfl, ?_, ?_⟩
  · intro dir name h1 h2
    cases dir with
    | nil => cases h1
    | cons d ds =>
      unfold resolveName
      rw [show (d :: ds).length + 1 = ds.length + 1 + 1 from rfl]
      rw [resolveLoop, if_pos (by simpa using h1)]
      rw [resolveLoop, if_neg (by simpa using h2)]
  · intro dir name h1 h2 h3
    have hne : name ≠ (⟨bumpName name.data 2⟩ : String) := by
      intro he
      have hd : name.data = bumpName name.data 2 := congrArg String.data he
      have hlen : name.data.length = (bumpName name.data 2).length := by rw [← hd]
      have hgt := bumpName_len name.data 2
      omega
    have hmem2 : (⟨bumpName name.data 2⟩ : String) ∈ dir.erase name :=
      (List.mem_erase_of_ne (Ne.symm hne)).mpr h2
    have hlen : 2 ≤ dir.length := by
      have h1' : 0 < (dir.erase name).length := List.length_pos_of_mem hmem2
      have := List.length_erase_of_mem h1
      omega
    obtain ⟨k, hk⟩ : ∃ k, dir.length = k + 2 := ⟨dir.length - 2, by omega⟩
    unfold resolveName
    rw [hk]
    rw [resolveLoop, if_pos (by simpa using h1)]
    rw [resolveLoop, if_pos (by simpa using h2)]
    rw [resolveLoop, if_neg (by simpa using h3)]

/-! ### Claim C8 -/

/-- C8: a row whose download produces no new file within the bounded
poll (or that has no download button) contributes no LogRecord and
leaves the state untouched, so the remaining rows are processed as if
the row were absent; concretely, a case with three rows where only
row 2 times out yields exactly the two records of rows 1 and 3, in
row order.  (The warning print of the skipped row is I/O and outside
the embedding.) -/
theorem C8_timeout_skips_row :
    (∀ (anum : String) (st : HarvestSt) (r : DocRow) (rest : List DocRow),
        r.hasBtn = false ∨
          (dkf r.polled).filter (fun n => !(st.dir.contains n)) = [] →
        download_case_docs anum (r :: rest) st = download_case_docs anum rest st) ∧
      (download_case_docs "A1"
          [⟨"L1", "", true, ["a.pdf"], ""⟩, ⟨"L2", "", true, [], ""⟩,
           ⟨"L3", "", true, ["b.pdf"], ""⟩] ⟨[], []⟩).logs.map
          (fun l => l.docLabel) = ["L1", "L3"] := by
  constructor
  · intro anum st r rest h
    unfold download_case_docs
    rw [List.foldl_cons]
    have hst : stepRow anum st r = st := by
      rcases h with h | h
      · simp [stepRow, h]
      · by_cases hb : r.hasBtn
        · unfold stepRow
          rw [hb, h]
          rfl
        · simp [stepRow, hb]
    rw [hst]
  · rfl

theorem C8_witness :
    download_case_docs "A9" [⟨"L", "", true, [], ""⟩] ⟨[], []⟩ =
      download_case_docs "A9" [] ⟨[], []⟩ :=
  C8_timeout_skips_row.1 "A9" ⟨[], []⟩ ⟨"L", "", true, [], ""⟩ [] (Or.inr rfl)

/-! ### Claim C10 -/

/-- The reserved characters named by the claim. -/
def forbiddenCh (c : Char) : Bool :=
  c = '/' || c = '\\' || c = ':' || c = '*' || c = '?' || c = '"' ||
    c = '<' || c = '>' || c = '|'

theorem sanCh_no_forbidden (c x : Char) (hx : x ∈ sanCh c) :
    forbiddenCh x = false := by
  unfold sanCh at hx
  split_ifs at hx with h1 h2 h3 h4 h5 h6 h7 h8 h9
  · rcases List.mem_singleton.mp hx with rfl; decide
  · rcases List.mem_singleton.mp hx with rfl; decide
  · fin_cases hx <;> decide
  · cases hx
  · cases hx
  · rcases List.mem_singleton.mp hx with rfl; decide
  · rcases List.mem_singleton.mp hx with rfl; decide
  · rcases List.mem_singleton.mp hx with rfl; decide
  · rcases List.mem_singleton.mp hx with rfl; decide
  · rcases List.mem_singleton.mp hx with rfl
    simp [forbiddenCh, h1, h2, h3, h4, h5, h6, h7, h8, h9]

theorem mem_wsTo1 {x : Char} {l : List Char} (h : x ∈ wsTo1 l) :
    x = ' ' ∨ x ∈ l := by
  rcases List.mem_map.mp h with ⟨c, hc, rfl⟩
  by_cases hs : isSpaceCh c = true
  · left; simp [hs]
  · right; simpa [hs] using hc

theorem sanitize_no_forbidden (s : String) :
    (sanitize s).data.all (fun c => !(forbiddenCh c)) = true := by
  rw [List.all_eq_true]
  intro c hc
  unfold sanitize at hc
  split at hc
  · cases hc
  · have h1 := mem_stripChars (l := squeeze (wsTo1 (s.data.flatMap sanCh))) hc
    have h2 := mem_squeeze h1
    rcases mem_wsTo1 h2 with rfl | h3
    · decide
    · rcases List.mem_flatMap.mp h3 with ⟨a, _, ha⟩
      simp [sanCh_no_forbidden a c ha]

/-- C10: the date component bypasses character sanitisation — when
the raw date fails every parse attempt it is passed through
unchanged, so `build_new_filename` can return a name containing the
path separator — while `sanitize` output (every other non-empty
component) never contains any of the characters
`/ \ : * ? " < > |`. -/
theorem C10_date_bypasses_sanitization :
    parse_date_any "13/45/2024" = "13/45/2024" ∧
      build_new_filename "" "" "13/45/2024" "" = "13/45/2024.pdf" ∧
      '/' ∈ (build_new_filename "" "" "13/45/2024" "").data ∧
      ∀ s : String, (sanitize s).data.all (fun c => !(forbiddenCh c)) = true :=
  ⟨rfl, rfl, by decide, sanitize_no_forbidden⟩

/-! ### Claim C1: collision-free, existing final filenames -/

theorem resolveLoop_not_mem (dir : List String) : ∀ (fuel : Nat) (cand : List Char)
    (i : Nat),
    (dir.filter (fun x => cand.length ≤ x.data.length)).length < fuel →
    (⟨resolveLoop dir fuel cand i⟩ : String) ∉ dir
  | 0, cand, i, h => absurd h (Nat.not_lt_zero _)
  | fuel + 1, cand, i, h => by
    rw [resolveLoop]
    split
    next hmem =>
      apply resolveLoop_not_mem dir fuel _ (i + 1)
      have hb := bumpName_len cand i
      have hpt : ∀ x : String,
          (decide ((bumpName cand i).length ≤ x.data.length) : Bool) =
            (decide ((bumpName cand i).length ≤ x.data.length) &&
              decide (cand.length ≤ x.data.length)) := by
        intro x
        by_cases hbl : (bumpName cand i).length ≤ x.data.length
        · have hcl : cand.length ≤ x.data.length := by omega
          rw [decide_eq_true hbl, decide_eq_true hcl]
          rfl
        · rw [decide_eq_false hbl]
          rfl
      have hsub : dir.filter (fun x => (bumpName cand i).length ≤ x.data.length) =
          (dir.filter (fun x => cand.length ≤ x.data.length)).filter
            (fun x => (bumpName cand i).length ≤ x.data.length) := by
        rw [List.filter_filter]
        exact List.filter_congr (fun x _ => hpt x)
      have hmemf : (⟨cand⟩ : String) ∈
          dir.filter (fun x => cand.length ≤ x.data.length) :=
        List.mem_filter.mpr ⟨hmem, by simp⟩
      have hstrict : (dir.filter
            (fun x => (bumpName cand i).length ≤ x.data.length)).length <
          (dir.filter (fun x => cand.length ≤ x.data.length)).length := by
        rw [hsub]
        refine List.length_filter_lt_length_iff_exists.mpr ⟨_, hmemf, ?_⟩
        simp only [String.data]
        simp
        omega
      omega
    next hmem => exact hmem

theorem resolveName_not_mem (dir : List String) (name : String) :
    resolveName dir name ∉ dir := by
  unfold resolveName
  apply resolveLoop_not_mem
  have := List.length_filter_le (fun x : String => name.data.length ≤ x.data.length) dir
  omega

/-- The run invariant: the directory listing has no duplicates, no
two log records name the same final file, and every logged final
filename is present in the directory. -/
def harvInv (st : HarvestSt) : Prop :=
  st.dir.Nodup ∧ (st.logs.map (fun l => l.finalFilename)).Nodup ∧
    ∀ l ∈ st.logs, l.finalFilename ∈ st.dir

theorem inv_update {dir : List String} {logs : List LogRecord}
    (hInv : harvInv ⟨dir, logs⟩) (adds : List String) (hadds : adds.Nodup)
    (hdisj : ∀ a ∈ adds, a ∉ dir) (f : String) (hf : f ∈ adds)
    (newname : String) (rec : LogRecord)
    (hrecname : rec.finalFilename = resolveName (dir ++ adds) newname) :
    harvInv ⟨((dir ++ adds).erase f) ++ [resolveName (dir ++ adds) newname],
             logs ++ [rec]⟩ := by
  obtain ⟨hdir, hlogs, hmem⟩ := hInv
  have hD : (dir ++ adds).Nodup :=
    List.Nodup.append hdir hadds (fun a ha hb => hdisj a hb ha)
  have hfinal : resolveName (dir ++ adds) newname ∉ dir ++ adds :=
    resolveName_not_mem _ _
  refine ⟨?_, ?_, ?_⟩
  · rw [List.nodup_append]
    refine ⟨hD.erase f, List.nodup_singleton _, ?_⟩
    intro a ha hb
    rcases List.mem_singleton.mp hb with rfl
    exact hfinal ((List.erase_sublist _ _).mem ha)
  · rw [List.map_append, List.nodup_append]
    refine ⟨hlogs, List.nodup_singleton _, ?_⟩
    intro a ha hb
    rcases List.mem_map.mp ha with ⟨l, hl, rfl⟩
    simp only [List.map_cons, List.map_nil, List.mem_singleton] at hb
    have hres : resolveName (dir ++ adds) newname ∈ dir := by
      rw [← hrecname, ← hb]
      exact hmem l hl
    exact hfinal (List.mem_append_left _ hres)
  · intro l hl
    rcases List.mem_append.mp hl with hl | hl
    · have hin : l.finalFilename ∈ dir := hmem l hl
      have hne : l.finalFilename ≠ f := fun he => hdisj f hf (he ▸ hin)
      exact List.mem_append_left _
        ((List.mem_erase_of_ne hne).mpr (List.mem_append_left _ hin))
    · rcases List.mem_singleton.mp hl with rfl
      rw [hrecname]
      exact List.mem_append_right _ (List.mem_singleton.mpr rfl)

theorem stepRow_inv (anum : String) (st : HarvestSt) (r : DocRow)
    (h : harvInv st) : harvInv (stepRow anum st r) := by
  obtain ⟨dir, logs⟩ := st
  unfold stepRow
  dsimp only
  split
  · exact h
  · split
    next => exact h
    next f rest heq =>
      refine inv_update h _ ?_ ?_ f ?_ _ _ rfl
      · exact (dkf_nodup _).filter _
      · intro a ha
        have := (List.mem_filter.mp ha).2
        simpa using this
      · rw [heq]
        exact List.mem_cons_self _ _

theorem download_case_docs_inv (anum : String) : ∀ (rows : List DocRow)
    (st : HarvestSt), harvInv st → harvInv (download_case_docs anum rows st)
  | [], _, h => h
  | r :: rest, st, h => by
    unfold download_case_docs
    rw [List.foldl_cons]
    exact download_case_docs_inv anum rest _ (stepRow_inv anum st r h)

theorem harvestCases_inv : ∀ (cases : List (String × List DocRow))
    (st : HarvestSt), harvInv st → harvInv (harvestCases cases st)
  | [], _, h => h
  | c :: rest, st, h => by
    unfold harvestCases
    rw [List.foldl_cons]
    exact harvestCases_inv rest _ (download_case_docs_inv c.1 c.2 st h)

/-- C1: over a whole run (any sequence of cases with any document
rows, starting from any duplicate-free directory listing), no two
appended LogRecords reference the same final filename, and every
record's final filename is present in the output directory — each
candidate was tested for non-existence before the rename, and final
names are never overwritten later. -/
theorem C1_final_filenames_unique (cs : List (String × List DocRow))
    (dir0 : List String) (h : dir0.Nodup) :
    ((harvestCases cs ⟨dir0, []⟩).logs.map (fun l => l.finalFilename)).Nodup ∧
      ∀ l ∈ (harvestCases cs ⟨dir0, []⟩).logs,
        l.finalFilename ∈ (harvestCases cs ⟨dir0, []⟩).dir := by
  have hinv := harvestCases_inv cs ⟨dir0, []⟩
    ⟨h, List.nodup_nil, fun l hl => absurd hl (List.not_mem_nil l)⟩
  exact ⟨hinv.2.1, hinv.2.2⟩

theorem C1_witness :
    (((harvestCases
          [("A1", [⟨"L1", "", true, ["a.pdf"], ""⟩, ⟨"L1", "", true, ["b.pdf"], ""⟩])]
          ⟨["x.bin"], []⟩).logs.map (fun l => l.finalFilename)).Nodup ∧
      ∀ l ∈ (harvestCases
          [("A1", [⟨"L1", "", true, ["a.pdf"], ""⟩, ⟨"L1", "", true, ["b.pdf"], ""⟩])]
          ⟨["x.bin"], []⟩).logs,
        l.finalFilename ∈ (harvestCases
          [("A1", [⟨"L1", "", true, ["a.pdf"], ""⟩, ⟨"L1", "", true, ["b.pdf"], ""⟩])]
          ⟨["x.bin"], []⟩).dir) :=
  C1_final_filenames_unique
    [("A1", [⟨"L1", "", true, ["a.pdf"], ""⟩, ⟨"L1", "", true, ["b.pdf"], ""⟩])]
    ["x.bin"] (List.nodup_singleton _)

/-! ### Claim C4: classifier characterisation -/

theorem qual_of_conds {ln : List Char} (h8 : ¬ ln.length < 8)
    (hl : ¬ (lettersOf ln).isEmpty = true) : qualLine ln = true := by
  simp only [qualLine, Bool.and_eq_true, decide_eq_true_eq, Bool.not_eq_true']
  exact ⟨by omega, by simpa using hl⟩

theorem qual_len {ln : List Char} (h : qualLine ln = true) : 8 ≤ ln.length := by
  simp only [qualLine, Bool.and_eq_true, decide_eq_true_eq] at h
  exact h.1

theorem qual_letters {ln : List Char} (h : qualLine ln = true) :
    (lettersOf ln).isEmpty = false := by
  simp only [qualLine, Bool.and_eq_true, Bool.not_eq_true'] at h
  exact h.2

theorem scanBest_stable : ∀ (ls : List (List Char)) (cand : List Char) (best : ℚ),
    (∀ x ∈ ls, qualLine x = true → lineScore x ≤ best) →
    scanBest ls cand best = cand
  | [], _, _, _ => rfl
  | ln :: rest, cand, best, h => by
    rw [scanBest]
    by_cases h8 : ln.length < 8
    · rw [if_pos h8]
      exact scanBest_stable rest cand best fun x hx => h x (List.mem_cons_of_mem _ hx)
    · rw [if_neg h8]
      by_cases hl : (lettersOf ln).isEmpty = true
      · rw [if_pos hl]
        exact scanBest_stable rest cand best fun x hx => h x (List.mem_cons_of_mem _ hx)
      · rw [if_neg hl]
        have hle := h ln (List.mem_cons_self _ _) (qual_of_conds h8 hl)
        rw [if_neg (not_lt.mpr hle)]
        exact scanBest_stable rest cand best fun x hx => h x (List.mem_cons_of_mem _ hx)

theorem scanBest_first_max : ∀ (ls : List (List Char)) (cand : List Char) (best : ℚ),
    (∃ x ∈ ls, qualLine x = true ∧ best < lineScore x) →
    ∃ l1 y l2, ls = l1 ++ y :: l2 ∧ scanBest ls cand best = y ∧ qualLine y = true ∧
      best < lineScore y ∧
      (∀ z ∈ l1, qualLine z = true → lineScore z < lineScore y) ∧
      ∀ z ∈ l2, qualLine z = true → lineScore z ≤ lineScore y
  | [], _, _, hex => by
    rcases hex with ⟨x, hx, _⟩
    cases hx
  | ln :: rest, cand, best, hex => by
    rw [scanBest]
    by_cases h8 : ln.length < 8
    · rw [if_pos h8]
      have hexr : ∃ x ∈ rest, qualLine x = true ∧ best < lineScore x := by
        rcases hex with ⟨x, hx, hq, hs⟩
        rcases List.mem_cons.mp hx with rfl | hx'
        · exact absurd (qual_len hq) (by omega)
        · exact ⟨x, hx', hq, hs⟩
      rcases scanBest_first_max rest cand best hexr with
        ⟨l1, y, l2, heq, hres, hqy, hby, hpre, hsuf⟩
      refine ⟨ln :: l1, y, l2, by rw [heq, List.cons_append], hres, hqy, hby, ?_, hsuf⟩
      intro z hz hqz
      rcases List.mem_cons.mp hz with rfl | hz'
      · exact absurd (qual_len hqz) (by omega)
      · exact hpre z hz' hqz
    · rw [if_neg h8]
      by_cases hl : (lettersOf ln).isEmpty = true
      · rw [if_pos hl]
        have hexr : ∃ x ∈ rest, qualLine x = true ∧ best < lineScore x := by
          rcases hex with ⟨x, hx, hq, hs⟩
          rcases List.mem_cons.mp hx with rfl | hx'
          · rw [qual_letters hq] at hl
            cases hl
          · exact ⟨x, hx', hq, hs⟩
        rcases scanBest_first_max rest cand best hexr with
          ⟨l1, y, l2, heq, hres, hqy, hby, hpre, hsuf⟩
        refine ⟨ln :: l1, y, l2, by rw [heq, List.cons_append], hres, hqy, hby, ?_, hsuf⟩
        intro z hz hqz
        rcases List.mem_cons.mp hz with rfl | hz'
        · rw [qual_letters hqz] at hl
          cases hl
        · exact hpre z hz' hqz
      · rw [if_neg hl]
        have hqln : qualLine ln = true := qual_of_conds h8 hl
        by_cases hbs : best < lineScore ln
        · rw [if_pos hbs]
          by_cases hex2 : ∃ z ∈ rest, qualLine z = true ∧ lineScore ln < lineScore z
          · rcases scanBest_first_max rest ln (lineScore ln) hex2 with
              ⟨l1, y, l2, heq, hres, hqy, hby, hpre, hsuf⟩
            refine ⟨ln :: l1, y, l2, by rw [heq, List.cons_append], hres, hqy,
              lt_trans hbs hby, ?_, hsuf⟩
            intro z hz hqz
            rcases List.mem_cons.mp hz with rfl | hz'
            · exact hby
            · exact hpre z hz' hqz
          · push_neg at hex2
            have hstab : scanBest rest ln (lineScore ln) = ln :=
              scanBest_stable rest ln _ fun z hz hq => hex2 z hz hq
            exact ⟨[], ln, rest, rfl, hstab, hqln, hbs,
              fun z hz => absurd hz (List.not_mem_nil z), hex2⟩
        · rw [if_neg hbs]
          have hexr : ∃ x ∈ rest, qualLine x = true ∧ best < lineScore x := by
            rcases hex with ⟨x, hx, hq, hs⟩
            rcases List.mem_cons.mp hx with rfl | hx'
            · exact absurd hs hbs
            · exact ⟨x, hx', hq, hs⟩
          rcases scanBest_first_max rest cand best hexr with
            ⟨l1, y, l2, heq, hres, hqy, hby, hpre, hsuf⟩
          refine ⟨ln :: l1, y, l2, by rw [heq, List.cons_append], hres, hqy, hby, ?_, hsuf⟩
          intro z hz hqz
          rcases List.mem_cons.mp hz with rfl | hz'
          · exact lt_of_le_of_lt (not_lt.mp hbs) hby
          · exact hpre z hz' hqz

theorem linesOf_take_ne_nil {l : List Char} {x : List Char}
    (hx : x ∈ (linesOf l).take 60) : x ≠ [] := by
  have hmem := List.take_subset _ _ hx
  unfold linesOf at hmem
  have := (List.mem_filter.mp hmem).2
  simpa using this

set_option maxRecDepth 8000 in
/-- The binary64 scoring is finer than exact rationals, as the
program's floats are: the keyword line "ORDER abcdefghij" has exact
rational score 5/15 + 3/20 = 29/60, equal to that of a keyword-free
line of 29 uppercase letters among 60, yet the float scores differ by
one ulp — fl(fl(1/3) + fl(3/20)) = 8706959279582958/2^54 while
fl(29/60) = 8706959279582959/2^54 — so the strict `>` update lets the
later line displace the earlier one on an exact-score tie. -/
theorem lineScore_breaks_exact_tie :
    ((lettersOf (lc "ORDER abcdefghij")).countP isUpperCh : ℚ) /
          (lettersOf (lc "ORDER abcdefghij")).length + 3 / 20 =
        ((lettersOf (lc "AAAAAAAAAAAAAAAAAAAAAAAAAAAAAbbbbbbbbbbbbbbbbbbbbbbbbbbbbbbb")).countP isUpperCh : ℚ) /
          (lettersOf (lc "AAAAAAAAAAAAAAAAAAAAAAAAAAAAAbbbbbbbbbbbbbbbbbbbbbbbbbbbbbbb")).length ∧
      lineScore (lc "ORDER abcdefghij") = qOf (8706959279582958, 54) ∧
      lineScore (lc "AAAAAAAAAAAAAAAAAAAAAAAAAAAAAbbbbbbbbbbbbbbbbbbbbbbbbbbbbbbb") = qOf (8706959279582959, 54) ∧
      lineScore (lc "ORDER abcdefghij") < lineScore (lc "AAAAAAAAAAAAAAAAAAAAAAAAAAAAAbbbbbbbbbbbbbbbbbbbbbbbbbbbbbbb") := by
  refine ⟨?_, rfl, rfl, ?_⟩
  · have h1 : ((lettersOf (lc "ORDER abcdefghij")).countP isUpperCh) = 5 := rfl
    have h2 : (lettersOf (lc "ORDER abcdefghij")).length = 15 := rfl
    have h3 : ((lettersOf (lc "AAAAAAAAAAAAAAAAAAAAAAAAAAAAAbbbbbbbbbbbbbbbbbbbbbbbbbbbbbbb")).countP isUpperCh) = 29 := rfl
    have h4 : (lettersOf (lc "AAAAAAAAAAAAAAAAAAAAAAAAAAAAAbbbbbbbbbbbbbbbbbbbbbbbbbbbbbbb")).length = 60 := rfl
    rw [h1, h2, h3, h4]
    norm_num
  · have hA : lineScore (lc "ORDER abcdefghij") = qOf (8706959279582958, 54) := rfl
    have hB : lineScore (lc "AAAAAAAAAAAAAAAAAAAAAAAAAAAAAbbbbbbbbbbbbbbbbbbbbbbbbbbbbbbb") = qOf (8706959279582959, 54) := rfl
    rw [hA, hB]
    simp only [qOf]
    norm_num

/-- C4 counterexample: `"abcdefgh"` is a qualifying line (length 8,
all alphabetic) among the considered lines, yet the classifier
returns the empty string, because the line's score is 0 and the
running best starts at 0 with a strict comparison. -/
theorem C4_counterexample :
    (linesOf (lc "abcdefgh")).take 60 = [lc "abcdefgh"] ∧
      qualLine (lc "abcdefgh") = true ∧
      guess_pleading_name_from_text "abcdefgh" = "" := by
  refine ⟨rfl, rfl, ?_⟩
  have h1 : lineScore (lc "abcdefgh") = 0 := by
    have h : lineScore (lc "abcdefgh") = qOf (0, 0) := rfl
    rw [h, qOf]
    norm_num
  show (⟨scanBest ((linesOf (lc "abcdefgh")).take 60) [] 0⟩ : String) = ""
  rw [show (linesOf (lc "abcdefgh")).take 60 = [lc "abcdefgh"] from rfl,
    scanBest, if_neg (by decide : ¬ (lc "abcdefgh").length < 8),
    if_neg (by decide : ¬ ((lettersOf (lc "abcdefgh")).isEmpty = true)),
    if_neg (by rw [h1]; norm_num : ¬ ((0 : ℚ) < lineScore (lc "abcdefgh")))]
  rfl

/-- C4 amended: the classifier returns `""` iff no qualifying line of
*strictly positive* score occurs among the first 60 stripped
non-blank lines; and whenever such a line exists, it returns the
earliest qualifying line whose score is strictly greater than every
earlier considered line's score and at least every later considered
line's score (the first line attaining the maximum; a later tie does
not displace it). -/
theorem C4_classifier_characterisation (text : String) :
    (guess_pleading_name_from_text text = "" ↔
      ∀ x ∈ (linesOf text.data).take 60, qualLine x = true → lineScore x ≤ 0) ∧
    ((∃ x ∈ (linesOf text.data).take 60, qualLine x = true ∧ 0 < lineScore x) →
      ∃ l1 y l2, (linesOf text.data).take 60 = l1 ++ y :: l2 ∧
        guess_pleading_name_from_text text = ⟨y⟩ ∧ qualLine y = true ∧
        0 < lineScore y ∧
        (∀ z ∈ l1, qualLine z = true → lineScore z < lineScore y) ∧
        ∀ z ∈ l2, qualLine z = true → lineScore z ≤ lineScore y) := by
  have hempty : text.data.isEmpty = true → (linesOf text.data).take 60 = [] := by
    intro he
    have hd : text.data = [] := by simpa using he
    rw [hd]
    rfl
  constructor
  · constructor
    · intro hres
      by_contra hcon
      push_neg at hcon
      obtain ⟨x, hx, hq, hs⟩ := hcon
      have hex : ∃ x ∈ (linesOf text.data).take 60,
          qualLine x = true ∧ (0 : ℚ) < lineScore x := ⟨x, hx, hq, hs⟩
      rcases scanBest_first_max _ [] 0 hex with ⟨l1, y, l2, heq, hres', hqy, _, _, _⟩
      have htext : ¬ text.data.isEmpty = true := by
        intro he
        rw [hempty he] at hx
        cases hx
      unfold guess_pleading_name_from_text at hres
      rw [if_neg htext] at hres
      have hdata : scanBest ((linesOf text.data).take 60) [] 0 = [] :=
        congrArg String.data hres
      rw [hres'] at hdata
      exact linesOf_take_ne_nil (heq ▸ List.mem_append_right l1 (List.mem_cons_self y l2)) hdata
    · intro hall
      unfold guess_pleading_name_from_text
      by_cases he : text.data.isEmpty = true
      · rw [if_pos he]
      · rw [if_neg he, scanBest_stable _ [] 0 hall]
  · intro hex
    rcases scanBest_first_max _ [] 0 hex with ⟨l1, y, l2, heq, hres, hqy, hby, hpre, hsuf⟩
    rcases hex with ⟨x, hx, _⟩
    have htext : ¬ text.data.isEmpty = true := by
      intro he
      rw [hempty he] at hx
      cases hx
    refine ⟨l1, y, l2, heq, ?_, hqy, hby, hpre, hsuf⟩
    unfold guess_pleading_name_from_text
    rw [if_neg htext, hres]

set_option maxRecDepth 8000 in
theorem C4_witness :
    ∃ l1 y l2,
      (linesOf ("Case No. 123\nMOTION TO CONTINUE PROCEEDINGS\nfiled by respondent" : String).data).take 60 =
          l1 ++ y :: l2 ∧
        guess_pleading_name_from_text
            "Case No. 123\nMOTION TO CONTINUE PROCEEDINGS\nfiled by respondent" =
          ⟨y⟩ ∧
        qualLine y = true ∧ 0 < lineScore y ∧
        (∀ z ∈ l1, qualLine z = true → lineScore z < lineScore y) ∧
        ∀ z ∈ l2, qualLine z = true → lineScore z ≤ lineScore y :=
  (C4_classifier_characterisation
      "Case No. 123\nMOTION TO CONTINUE PROCEEDINGS\nfiled by respondent").2
    ⟨lc "MOTION TO CONTINUE PROCEEDINGS", by
      rw [show (linesOf ("Case No. 123\nMOTION TO CONTINUE PROCEEDINGS\nfiled by respondent" : String).data).take 60 =
          [lc "Case No. 123", lc "MOTION TO CONTINUE PROCEEDINGS",
           lc "filed by respondent"] from rfl]
      exact List.mem_cons_of_mem _ (List.mem_cons_self _ _),
     rfl, by
      have h : lineScore (lc "MOTION TO CONTINUE PROCEEDINGS") =
          qOf (5179139571476070, 52) := rfl
      rw [h, qOf]
      norm_num⟩

/-! ### Claim C5: the six explicit date formats

Renderings of a calendar date in the six supported formats, and the
behaviour of each `strptime` field parser on them.  `digChar` facts
with a bounded symbolic digit are settled by `interval_cases`. -/

theorem digVal_digChar {k : Nat} (h : k ≤ 9) : digVal (digChar k) = k := by
  interval_cases k <;> rfl

theorem isDigit_digChar {k : Nat} (h : k ≤ 9) : isDigitCh (digChar k) = true := by
  interval_cases k <;> rfl

theorem not_space_digChar {k : Nat} (h : k ≤ 9) : isSpaceCh (digChar k) = false := by
  interval_cases k <;> rfl

theorem digChar_ge0 {k : Nat} (h : k ≤ 9) : decide ('0' ≤ digChar k) = true := by
  interval_cases k <;> rfl

theorem digChar_ge1 {k : Nat} (h1 : 1 ≤ k) (h : k ≤ 9) :
    decide ('1' ≤ digChar k) = true := by
  interval_cases k <;> rfl

theorem digChar_le9 {k : Nat} (h : k ≤ 9) : decide (digChar k ≤ '9') = true := by
  interval_cases k <;> rfl

theorem digChar_le2 {k : Nat} (h : k ≤ 2) : decide (digChar k ≤ '2') = true := by
  interval_cases k <;> rfl

theorem digChar_le1 {k : Nat} (h : k ≤ 1) : decide (digChar k ≤ '1') = true := by
  interval_cases k <;> rfl

theorem digChar_ne0 {k : Nat} (h1 : 1 ≤ k) (h : k ≤ 9) :
    decide (digChar k = '0') = false := by
  interval_cases k <;> rfl

theorem digChar_ne3 {k : Nat} (h : k ≤ 2) : decide (digChar k = '3') = false := by
  interval_cases k <;> rfl

theorem digChar_ne_slash {k : Nat} (h : k ≤ 9) : digChar k ≠ '/' := by
  interval_cases k <;> decide

theorem digChar_ne_dash {k : Nat} (h : k ≤ 9) : digChar k ≠ '-' := by
  interval_cases k <;> decide

theorem digChar_ne_comma {k : Nat} (h : k ≤ 9) : digChar k ≠ ',' := by
  interval_cases k <;> decide

theorem pbind_cons {α β : Type} (a : α) (s : List Char) (xs : List (α × List Char))
    (f : α → List Char → List (β × List Char)) :
    pbind ((a, s) :: xs) f = f a s ++ pbind xs f := rfl

theorem pbind_nil {α β : Type} (f : α → List Char → List (β × List Char)) :
    pbind ([] : List (α × List Char)) f = [] := rfl

theorem pbind_single {α β : Type} (a : α) (s : List Char)
    (f : α → List Char → List (β × List Char)) :
    pbind [(a, s)] f = f a s := by
  simp [pbind]

theorem pmLit_cons_self (c : Char) (rest : List Char) :
    pmLit c (c :: rest) = [((), rest)] := by
  simp [pmLit]

theorem pmLit_cons_ne {c c' : Char} (h : c' ≠ c) (rest : List Char) :
    pmLit c (c' :: rest) = [] := by
  simp [pmLit, h]

theorem pmM_pad2 {m : Nat} (h1 : 1 ≤ m) (h2 : m ≤ 12) (rest : List Char) :
    pmM (pad2 m ++ rest) =
      (m, rest) :: (if 10 ≤ m then [(1, digChar (m % 10) :: rest)] else []) := by
  have hm10 : m / 10 % 10 = m / 10 := by omega
  rcases le_or_lt m 9 with hle | hgt
  · have hd : m / 10 = 0 := by omega
    have hm : m % 10 = m := by omega
    have e1 : decide (digChar 0 = '1') = false := rfl
    have e2 : decide (digChar 0 = '0') = true := rfl
    have e3 : decide ('1' ≤ digChar 0) = false := rfl
    have f0 : decide ('0' ≤ digChar m) = true := digChar_ge0 hle
    have f1 : decide ('1' ≤ digChar m) = true := digChar_ge1 h1 hle
    have f9 : decide (digChar m ≤ '9') = true := digChar_le9 hle
    simp only [pad2, hm10, hd, hm, Nat.zero_mod, List.cons_append, List.nil_append,
      pmM, e1, e2, e3, f0, f1, f9, Bool.false_and, Bool.true_and, Bool.and_false,
      Bool.and_true, if_true, if_false, digVal_digChar hle, Bool.false_eq_true]
    rw [if_neg (by omega)]
  · have hd : m / 10 = 1 := by omega
    have hm2 : m % 10 ≤ 2 := by omega
    have e1 : decide (digChar 1 = '1') = true := rfl
    have e2 : decide (digChar 1 = '0') = false := rfl
    have e3 : decide ('1' ≤ digChar 1) = true := rfl
    have e4 : decide (digChar 1 ≤ '9') = true := rfl
    have f0 : decide ('0' ≤ digChar (m % 10)) = true := digChar_ge0 (by omega)
    have f2 : decide (digChar (m % 10) ≤ '2') = true := digChar_le2 hm2
    have hval : 10 + (m % 10) = m := by omega
    have hv1 : digVal (digChar 1) = 1 := rfl
    simp only [pad2, hm10, hd, Nat.zero_mod, List.cons_append, List.nil_append,
      pmM, e1, e2, e3, e4, f0, f2, Bool.false_and, Bool.true_and, Bool.and_false,
      Bool.and_true, if_true, if_false, digVal_digChar (show m % 10 ≤ 9 by omega),
      hval, hv1, Bool.false_eq_true]
    rw [if_pos (by omega)]

theorem pmD_pad2 {d : Nat} (h1 : 1 ≤ d) (h2 : d ≤ 31) (rest : List Char) :
    pmD (pad2 d ++ rest) =
      (d, rest) :: (if 10 ≤ d then [(d / 10, digChar (d % 10) :: rest)] else []) := by
  have hd10 : d / 10 % 10 = d / 10 := by omega
  rcases Nat.lt_or_ge d 10 with hA | hA
  · have hd : d / 10 = 0 := by omega
    have hm : d % 10 = d := by omega
    have e3 : decide (digChar 0 = '3') = false := rfl
    have e1 : decide ('1' ≤ digChar 0) = false := rfl
    have e0 : decide (digChar 0 = '0') = true := rfl
    have f1 : decide ('1' ≤ digChar d) = true := digChar_ge1 h1 (by omega)
    have f9 : decide (digChar d ≤ '9') = true := digChar_le9 (by omega)
    have f0 : decide ('0' ≤ digChar d) = true := digChar_ge0 (by omega)
    simp only [pad2, hd10, hd, hm, Nat.zero_mod, List.cons_append, List.nil_append,
      pmD, e3, e1, e0, f1, f9, f0, Bool.false_and, Bool.true_and, Bool.and_false,
      Bool.and_true, if_true, if_false, digVal_digChar (show d ≤ 9 by omega),
      Bool.false_eq_true]
    rw [if_neg (by omega)]
  · rcases Nat.lt_or_ge d 30 with hB | hB
    · have hdd : 1 ≤ d / 10 := by omega
      have hdd2 : d / 10 ≤ 2 := by omega
      have e3 : decide (digChar (d / 10) = '3') = false := digChar_ne3 hdd2
      have e1 : decide ('1' ≤ digChar (d / 10)) = true := digChar_ge1 hdd (by omega)
      have e2 : decide (digChar (d / 10) ≤ '2') = true := digChar_le2 hdd2
      have e9 : decide (digChar (d / 10) ≤ '9') = true := digChar_le9 (by omega)
      have e0 : decide (digChar (d / 10) = '0') = false := digChar_ne0 hdd (by omega)
      have fD : isDigitCh (digChar (d % 10)) = true := isDigit_digChar (by omega)
      have hval : 10 * (d / 10) + d % 10 = d := by omega
      simp only [pad2, hd10, List.cons_append, List.nil_append, pmD, e3, e1, e2,
        e9, e0, fD, Bool.false_and, Bool.true_and, Bool.and_false, Bool.and_true,
        if_true, if_false, digVal_digChar (show d / 10 ≤ 9 by omega),
        digVal_digChar (show d % 10 ≤ 9 by omega), hval, Bool.false_eq_true]
      rw [if_pos (by omega)]
    · have hd3 : d / 10 = 3 := by omega
      have hm1 : d % 10 ≤ 1 := by omega
      have e3 : decide (digChar 3 = '3') = true := rfl
      have e1 : decide ('1' ≤ digChar 3) = true := rfl
      have e2 : decide (digChar 3 ≤ '2') = false := rfl
      have e9 : decide (digChar 3 ≤ '9') = true := rfl
      have e0 : decide (digChar 3 = '0') = false := rfl
      have f0 : decide ('0' ≤ digChar (d % 10)) = true := digChar_ge0 (by omega)
      have f1 : decide (digChar (d % 10) ≤ '1') = true := digChar_le1 hm1
      have hval : 30 + d % 10 = d := by omega
      have hv3 : digVal (digChar 3) = 3 := rfl
      rw [show (3 : Nat) = d / 10 from hd3.symm] at hv3
      simp only [pad2, hd10, hd3, List.cons_append, List.nil_append, pmD, e3, e1,
        e2, e9, e0, f0, f1, Bool.false_and, Bool.true_and, Bool.and_false,
        Bool.and_true, if_true, if_false,
        digVal_digChar (show d % 10 ≤ 9 by omega), hval, hv3, Bool.false_eq_true]
      rw [if_pos (by omega)]
      simp [show digVal (digChar (3 % 10)) = 3 from rfl]

theorem pmY4_pad4 {y : Nat} (h : y ≤ 9999) (rest : List Char) :
    pmY4 (pad4 y ++ rest) = [(y, rest)] := by
  have h1 : y / 1000 % 10 = y / 1000 := by omega
  simp only [pad4, List.cons_append, List.nil_append, pmY4, h1,
    isDigit_digChar (show y / 1000 ≤ 9 by omega),
    isDigit_digChar (show y / 100 % 10 ≤ 9 by omega),
    isDigit_digChar (show y / 10 % 10 ≤ 9 by omega),
    isDigit_digChar (show y % 10 ≤ 9 by omega),
    digVal_digChar (show y / 1000 ≤ 9 by omega),
    digVal_digChar (show y / 100 % 10 ≤ 9 by omega),
    digVal_digChar (show y / 10 % 10 ≤ 9 by omega),
    digVal_digChar (show y % 10 ≤ 9 by omega),
    Bool.and_true, Bool.true_and, if_true]
  have hval : ((y / 1000 * 10 + y / 100 % 10) * 10 + y / 10 % 10) * 10 + y % 10 = y := by
    omega
  rw [hval]

theorem pmY2_pad2 {k : Nat} (hk : k ≤ 99) (rest : List Char) :
    pmY2 (pad2 k ++ rest) =
      [(if k ≤ 68 then 2000 + k else 1900 + k, rest)] := by
  have h1 : k / 10 % 10 = k / 10 := by omega
  simp only [pad2, List.cons_append, List.nil_append, pmY2, h1,
    isDigit_digChar (show k / 10 ≤ 9 by omega),
    isDigit_digChar (show k % 10 ≤ 9 by omega),
    digVal_digChar (show k / 10 ≤ 9 by omega),
    digVal_digChar (show k % 10 ≤ 9 by omega),
    Bool.and_true, Bool.true_and, if_true]
  have hval : k / 10 * 10 + k % 10 = k := by omega
  rw [hval]

/-- Unpadded day rendering used in the textual month formats. -/
def dayStr (d : Nat) : List Char := if d < 10 then [digChar d] else pad2 d

theorem pmD_day {d : Nat} (h1 : 1 ≤ d) (h2 : d ≤ 31) (rest : List Char) :
    pmD (dayStr d ++ ',' :: rest) =
      (d, ',' :: rest) ::
        (if 10 ≤ d then [(d / 10, digChar (d % 10) :: ',' :: rest)] else []) := by
  unfold dayStr
  by_cases hd : d < 10
  · rw [if_pos hd]
    have e1 : decide ('0' ≤ ',') = false := rfl
    have e2 : isDigitCh ',' = false := rfl
    have e3 : decide ('1' ≤ ',') = false := rfl
    have f1 : decide ('1' ≤ digChar d) = true := digChar_ge1 h1 (by omega)
    have f9 : decide (digChar d ≤ '9') = true := digChar_le9 (by omega)
    simp only [List.cons_append, List.nil_append, pmD, e1, e2, e3, f1, f9,
      Bool.false_and, Bool.true_and, Bool.and_false, Bool.and_true, if_true,
      if_false, digVal_digChar (show d ≤ 9 by omega), Bool.false_eq_true]
    rw [if_neg (by omega)]
  · rw [if_neg hd]
    exact pmD_pad2 h1 h2 (',' :: rest)

theorem takeWhile_space_cons {a : Char} (ha : isSpaceCh a = false) (l : List Char) :
    (a :: l).takeWhile isSpaceCh = [] := by
  rw [List.takeWhile_cons, ha]
  rfl

theorem pmWS_space_digit {k : Nat} (hk : k ≤ 9) (tail : List Char) :
    pmWS (' ' :: digChar k :: tail) = [((), digChar k :: tail)] := by
  unfold pmWS repCand
  rw [List.takeWhile_cons, show isSpaceCh ' ' = true from rfl,
    takeWhile_space_cons (not_space_digChar hk)]
  norm_num [List.range_succ]

theorem takeWhile_space_dayStr (d : Nat) (tail : List Char) :
    ((dayStr d ++ tail).takeWhile isSpaceCh) = [] := by
  unfold dayStr
  by_cases hd : d < 10
  · rw [if_pos hd, List.cons_append, List.nil_append]
    exact takeWhile_space_cons (not_space_digChar (by omega)) _
  · rw [if_neg hd]
    exact takeWhile_space_cons (not_space_digChar (by omega)) _

theorem takeWhile_space_pad4 (y : Nat) (tail : List Char) :
    ((pad4 y ++ tail).takeWhile isSpaceCh) = [] :=
  takeWhile_space_cons (not_space_digChar (by omega)) _

theorem pmWS_space_day {d : Nat} (tail : List Char) :
    pmWS (' ' :: (dayStr d ++ tail)) = [((), dayStr d ++ tail)] := by
  unfold pmWS repCand
  rw [List.takeWhile_cons, show isSpaceCh ' ' = true from rfl,
    takeWhile_space_dayStr]
  norm_num [List.range_succ]

theorem pmWS_space_pad4 {y : Nat} (tail : List Char) :
    pmWS (' ' :: (pad4 y ++ tail)) = [((), pad4 y ++ tail)] := by
  unfold pmWS repCand
  rw [List.takeWhile_cons, show isSpaceCh ' ' = true from rfl,
    takeWhile_space_pad4]
  norm_num [List.range_succ]

/-- The six renderings of a calendar date the claim refers to. -/
def renderMDY4 (y m d : Nat) : List Char :=
  pad2 m ++ '/' :: (pad2 d ++ '/' :: pad4 y)

def renderMDY4dash (y m d : Nat) : List Char :=
  pad2 m ++ '-' :: (pad2 d ++ '-' :: pad4 y)

def renderISO (y m d : Nat) : List Char :=
  pad4 y ++ '-' :: (pad2 m ++ '-' :: pad2 d)

def renderMDY2 (y m d : Nat) : List Char :=
  pad2 m ++ '/' :: (pad2 d ++ '/' :: pad2 (y % 100))

def monthAbbrevR : Nat → List Char
  | 1 => lc "Jan" | 2 => lc "Feb" | 3 => lc "Mar" | 4 => lc "Apr"
  | 5 => lc "May" | 6 => lc "Jun" | 7 => lc "Jul" | 8 => lc "Aug"
  | 9 => lc "Sep" | 10 => lc "Oct" | 11 => lc "Nov" | 12 => lc "Dec"
  | _ => []

def monthFullR : Nat → List Char
  | 1 => lc "January" | 2 => lc "February" | 3 => lc "March" | 4 => lc "April"
  | 5 => lc "May" | 6 => lc "June" | 7 => lc "July" | 8 => lc "August"
  | 9 => lc "September" | 10 => lc "October" | 11 => lc "November"
  | 12 => lc "December"
  | _ => []

def renderAbbrev (y m d : Nat) : List Char :=
  monthAbbrevR m ++ ' ' :: (dayStr d ++ ',' :: ' ' :: pad4 y)

def renderFull (y m d : Nat) : List Char :=
  monthFullR m ++ ' ' :: (dayStr d ++ ',' :: ' ' :: pad4 y)

/-! #### Stripping is the identity on the renderings -/

theorem stripChars_eq_self_of {l : List Char} (h1 : l.dropWhile isSpaceCh = l)
    (h2 : l.reverse.dropWhile isSpaceCh = l.reverse) : stripChars l = l := by
  unfold stripChars
  rw [h1, h2, List.reverse_reverse]

theorem dropWhile_space_cons {a : Char} (ha : isSpaceCh a = false) (l : List Char) :
    (a :: l).dropWhile isSpaceCh = a :: l := by
  rw [List.dropWhile_cons, ha]
  rfl

theorem dropWhile_space_digChar {k : Nat} (hk : k ≤ 9) (l : List Char) :
    (digChar k :: l).dropWhile isSpaceCh = digChar k :: l :=
  dropWhile_space_cons (not_space_digChar hk) l

theorem reverse_pad4_append (a : List Char) (y : Nat) :
    (a ++ pad4 y).reverse =
      digChar (y % 10) :: (digChar (y / 10 % 10) :: digChar (y / 100 % 10) ::
        digChar (y / 1000 % 10) :: []) ++ a.reverse := by
  rw [List.reverse_append]
  rfl

theorem dropWhile_space_reverse_pad4 (a : List Char) (y : Nat) :
    ((a ++ pad4 y).reverse).dropWhile isSpaceCh = (a ++ pad4 y).reverse := by
  rw [reverse_pad4_append, List.cons_append]
  exact dropWhile_space_digChar (by omega) _

theorem reverse_pad2_append (a : List Char) (k : Nat) :
    (a ++ pad2 k).reverse =
      digChar (k % 10) :: (digChar (k / 10 % 10) :: []) ++ a.reverse := by
  rw [List.reverse_append]
  rfl

theorem dropWhile_space_reverse_pad2 (a : List Char) (k : Nat) :
    ((a ++ pad2 k).reverse).dropWhile isSpaceCh = (a ++ pad2 k).reverse := by
  rw [reverse_pad2_append, List.cons_append]
  exact dropWhile_space_digChar (by omega) _

theorem strip_renderMDY4 (y m d : Nat) :
    stripChars (renderMDY4 y m d) = renderMDY4 y m d := by
  have hshape : renderMDY4 y m d = (pad2 m ++ '/' :: pad2 d ++ ['/']) ++ pad4 y := by
    unfold renderMDY4
    simp [List.append_assoc]
  refine stripChars_eq_self_of ?_ ?_
  · exact dropWhile_space_digChar (show m / 10 % 10 ≤ 9 by omega) _
  · rw [hshape]
    exact dropWhile_space_reverse_pad4 _ y

theorem strip_renderMDY4dash (y m d : Nat) :
    stripChars (renderMDY4dash y m d) = renderMDY4dash y m d := by
  have hshape : renderMDY4dash y m d = (pad2 m ++ '-' :: pad2 d ++ ['-']) ++ pad4 y := by
    unfold renderMDY4dash
    simp [List.append_assoc]
  refine stripChars_eq_self_of ?_ ?_
  · exact dropWhile_space_digChar (show m / 10 % 10 ≤ 9 by omega) _
  · rw [hshape]
    exact dropWhile_space_reverse_pad4 _ y

theorem strip_renderISO (y m d : Nat) :
    stripChars (renderISO y m d) = renderISO y m d := by
  have hshape : renderISO y m d = (pad4 y ++ '-' :: pad2 m ++ ['-']) ++ pad2 d := by
    unfold renderISO
    simp [List.append_assoc]
  refine stripChars_eq_self_of ?_ ?_
  · exact dropWhile_space_digChar (show y / 1000 % 10 ≤ 9 by omega) _
  · rw [hshape]
    exact dropWhile_space_reverse_pad2 _ d

theorem strip_renderMDY2 (y m d : Nat) :
    stripChars (renderMDY2 y m d) = renderMDY2 y m d := by
  have hshape : renderMDY2 y m d =
      (pad2 m ++ '/' :: pad2 d ++ ['/']) ++ pad2 (y % 100) := by
    unfold renderMDY2
    simp [List.append_assoc]
  refine stripChars_eq_self_of ?_ ?_
  · exact dropWhile_space_digChar (show m / 10 % 10 ≤ 9 by omega) _
  · rw [hshape]
    exact dropWhile_space_reverse_pad2 _ (y % 100)

theorem strip_renderMonth (mon : List Char) (c : Char) (hne : mon = c :: mon.tail)
    (hc : isSpaceCh c = false) (y d : Nat) :
    stripChars (mon ++ ' ' :: (dayStr d ++ ',' :: ' ' :: pad4 y)) =
      mon ++ ' ' :: (dayStr d ++ ',' :: ' ' :: pad4 y) := by
  have hshape : mon ++ ' ' :: (dayStr d ++ ',' :: ' ' :: pad4 y) =
      (mon ++ ' ' :: dayStr d ++ [','] ++ [' ']) ++ pad4 y := by
    simp [List.append_assoc]
  refine stripChars_eq_self_of ?_ ?_
  · rw [hne, List.cons_append]
    exact dropWhile_space_cons hc _
  · rw [hshape]
    exact dropWhile_space_reverse_pad4 _ y

/-! #### Format results on the numeric renderings -/

theorem daysInMonth_le_31 (y m : Nat) : daysInMonth y m ≤ 31 := by
  unfold daysInMonth
  split_ifs <;> omega

theorem validDate_bounds {y m d : Nat} (h : validDate y m d = true) :
    1 ≤ y ∧ y ≤ 9999 ∧ 1 ≤ m ∧ m ≤ 12 ∧ 1 ≤ d ∧ d ≤ 31 := by
  unfold validDate at h
  simp only [Bool.and_eq_true, decide_eq_true_eq] at h
  have := daysInMonth_le_31 y m
  omega

theorem pmY4_nil_of_pad2 (k : Nat) : pmY4 (pad2 k) = [] := rfl

theorem strptimeMDY_render (y m d : Nat) (hv : validDate y m d = true)
    (h1 : 1 ≤ m) (h2 : m ≤ 12) (h3 : 1 ≤ d) (h4 : d ≤ 31) (hy : y ≤ 9999) :
    strptimeMDY (renderMDY4 y m d) = some (y, m, d) := by
  have hy4 : pmY4 (pad4 y) = [(y, [])] := by
    have := pmY4_pad4 hy []
    rwa [List.append_nil] at this
  unfold renderMDY4 strptimeMDY
  rw [pmM_pad2 h1 h2]
  by_cases h10 : 10 ≤ m <;> by_cases hd10 : 10 ≤ d <;>
    simp [h10, hd10, pbind, pmLit_cons_self, pmD_pad2 h3 h4,
      pmLit_cons_ne (digChar_ne_slash (show m % 10 ≤ 9 by omega)),
      pmLit_cons_ne (digChar_ne_slash (show d % 10 ≤ 9 by omega)),
      hy4, firstValid, hv]

theorem strptimeMDYdash_render (y m d : Nat) (hv : validDate y m d = true)
    (h1 : 1 ≤ m) (h2 : m ≤ 12) (h3 : 1 ≤ d) (h4 : d ≤ 31) (hy : y ≤ 9999) :
    strptimeMDYdash (renderMDY4dash y m d) = some (y, m, d) := by
  have hy4 : pmY4 (pad4 y) = [(y, [])] := by
    have := pmY4_pad4 hy []
    rwa [List.append_nil] at this
  unfold renderMDY4dash strptimeMDYdash
  rw [pmM_pad2 h1 h2]
  by_cases h10 : 10 ≤ m <;> by_cases hd10 : 10 ≤ d <;>
    simp [h10, hd10, pbind, pmLit_cons_self, pmD_pad2 h3 h4,
      pmLit_cons_ne (digChar_ne_dash (show m % 10 ≤ 9 by omega)),
      pmLit_cons_ne (digChar_ne_dash (show d % 10 ≤ 9 by omega)),
      hy4, firstValid, hv]

theorem strptimeYmd_render (y m d : Nat) (hv : validDate y m d = true)
    (h1 : 1 ≤ m) (h2 : m ≤ 12) (h3 : 1 ≤ d) (h4 : d ≤ 31) (hy : y ≤ 9999) :
    strptimeYmd (renderISO y m d) = some (y, m, d) := by
  have hd2 : pmD (pad2 d) = (d, []) ::
      (if 10 ≤ d then [(d / 10, digChar (d % 10) :: [])] else []) := by
    have := pmD_pad2 h3 h4 []
    rwa [List.append_nil] at this
  unfold renderISO strptimeYmd
  rw [pmY4_pad4 hy]
  by_cases h10 : 10 ≤ m <;> by_cases hd10 : 10 ≤ d <;>
    simp [h10, hd10, pbind, pmLit_cons_self, pmM_pad2 h1 h2, hd2,
      pmLit_cons_ne (digChar_ne_dash (show m % 10 ≤ 9 by omega)),
      firstValid, hv]

theorem strptimeMDy_render (y m d : Nat) (hv : validDate y m d = true)
    (h1 : 1 ≤ m) (h2 : m ≤ 12) (h3 : 1 ≤ d) (h4 : d ≤ 31)
    (hy1 : 1969 ≤ y) (hy2 : y ≤ 2068) :
    strptimeMDy (renderMDY2 y m d) = some (y, m, d) := by
  have hcent : (if y % 100 ≤ 68 then 2000 + y % 100 else 1900 + y % 100) = y := by
    rcases le_or_lt y 1999 with hc | hc
    · rw [if_neg (by omega)]
      omega
    · rw [if_pos (by omega)]
      omega
  have hy2' : pmY2 (pad2 (y % 100)) = [(y, [])] := by
    have := pmY2_pad2 (show y % 100 ≤ 99 by omega) []
    rwa [List.append_nil, hcent] at this
  unfold renderMDY2 strptimeMDy
  rw [pmM_pad2 h1 h2]
  by_cases h10 : 10 ≤ m <;> by_cases hd10 : 10 ≤ d <;>
    simp [h10, hd10, pbind, pmLit_cons_self, pmD_pad2 h3 h4,
      pmLit_cons_ne (digChar_ne_slash (show m % 10 ≤ 9 by omega)),
      pmLit_cons_ne (digChar_ne_slash (show d % 10 ≤ 9 by omega)),
      hy2', firstValid, hv]

/-! #### Format failures on the other numeric renderings -/

theorem strptimeMDY_sep_none (m : Nat) (h1 : 1 ≤ m) (h2 : m ≤ 12)
    (c : Char) (hc : c ≠ '/') (rest : List Char) :
    strptimeMDY (pad2 m ++ c :: rest) = none := by
  unfold strptimeMDY
  rw [pmM_pad2 h1 h2]
  by_cases h10 : 10 ≤ m <;>
    simp [h10, pbind, pmLit_cons_ne hc,
      pmLit_cons_ne (digChar_ne_slash (show m % 10 ≤ 9 by omega)), firstValid]

theorem strptimeMDYdash_sep_none (m : Nat) (h1 : 1 ≤ m) (h2 : m ≤ 12)
    (c : Char) (hc : c ≠ '-') (rest : List Char) :
    strptimeMDYdash (pad2 m ++ c :: rest) = none := by
  unfold strptimeMDYdash
  rw [pmM_pad2 h1 h2]
  by_cases h10 : 10 ≤ m <;>
    simp [h10, pbind, pmLit_cons_ne hc,
      pmLit_cons_ne (digChar_ne_dash (show m % 10 ≤ 9 by omega)), firstValid]

theorem strptimeMDY_iso_none (y : Nat) (hy1 : 1969 ≤ y) (hy2 : y ≤ 2068)
    (rest : List Char) : strptimeMDY (pad4 y ++ rest) = none := by
  rcases le_or_lt y 1999 with hc | hc
  · have e1 : y / 1000 % 10 = 1 := by omega
    have e2 : y / 100 % 10 = 9 := by omega
    have hpad : pad4 y ++ rest =
        '1' :: '9' :: digChar (y / 10 % 10) :: digChar (y % 10) :: rest := by
      simp [pad4, e1, e2, show digChar 1 = '1' from rfl, show digChar 9 = '9' from rfl]
    rw [hpad]
    unfold strptimeMDY
    simp [pmM, pbind, pmLit, firstValid]
  · have e1 : y / 1000 % 10 = 2 := by omega
    have e2 : y / 100 % 10 = 0 := by omega
    have hpad : pad4 y ++ rest =
        '2' :: '0' :: digChar (y / 10 % 10) :: digChar (y % 10) :: rest := by
      simp [pad4, e1, e2, show digChar 2 = '2' from rfl, show digChar 0 = '0' from rfl]
    rw [hpad]
    unfold strptimeMDY
    simp [pmM, pbind, pmLit, firstValid]

theorem strptimeMDYdash_iso_none (y : Nat) (hy1 : 1969 ≤ y) (hy2 : y ≤ 2068)
    (rest : List Char) : strptimeMDYdash (pad4 y ++ rest) = none := by
  rcases le_or_lt y 1999 with hc | hc
  · have e1 : y / 1000 % 10 = 1 := by omega
    have e2 : y / 100 % 10 = 9 := by omega
    have hpad : pad4 y ++ rest =
        '1' :: '9' :: digChar (y / 10 % 10) :: digChar (y % 10) :: rest := by
      simp [pad4, e1, e2, show digChar 1 = '1' from rfl, show digChar 9 = '9' from rfl]
    rw [hpad]
    unfold strptimeMDYdash
    simp [pmM, pbind, pmLit, firstValid]
  · have e1 : y / 1000 % 10 = 2 := by omega
    have e2 : y / 100 % 10 = 0 := by omega
    have hpad : pad4 y ++ rest =
        '2' :: '0' :: digChar (y / 10 % 10) :: digChar (y % 10) :: rest := by
      simp [pad4, e1, e2, show digChar 2 = '2' from rfl, show digChar 0 = '0' from rfl]
    rw [hpad]
    unfold strptimeMDYdash
    simp [pmM, pbind, pmLit, firstValid]

theorem strptimeMDY_y2_none (y m d : Nat) (h1 : 1 ≤ m) (h2 : m ≤ 12)
    (h3 : 1 ≤ d) (h4 : d ≤ 31) :
    strptimeMDY (renderMDY2 y m d) = none := by
  unfold renderMDY2 strptimeMDY
  rw [pmM_pad2 h1 h2]
  by_cases h10 : 10 ≤ m <;> by_cases hd10 : 10 ≤ d <;>
    simp [h10, hd10, pbind, pmLit_cons_self, pmD_pad2 h3 h4,
      pmLit_cons_ne (digChar_ne_slash (show m % 10 ≤ 9 by omega)),
      pmLit_cons_ne (digChar_ne_slash (show d % 10 ≤ 9 by omega)),
      pmY4_nil_of_pad2, firstValid]

theorem strptimeYmd_2dig_none (m : Nat) (rest : List Char) (c : Char)
    (hc : isDigitCh c = false) :
    strptimeYmd (pad2 m ++ c :: rest) = none := by
  unfold strptimeYmd
  have h4 : pmY4 (pad2 m ++ c :: rest) = [] := by
    cases rest with
    | nil => rfl
    | cons a as => simp [pad2, pmY4, hc]
  rw [h4, pbind_nil]
  rfl

/-! #### `parse_date_any` on the four numeric renderings -/

theorem pdaCore_eq_of {l : List Char} {v : Nat × Nat × Nat}
    (hne : l.isEmpty = false) (hs : stripChars l = l) (ht : tryFmts l = some v) :
    pdaCore l = fmtCanon v := by
  unfold pdaCore
  rw [hne]
  simp only [Bool.false_eq_true, if_false]
  rw [hs, ht]

theorem pdaCore_R1 (y m d : Nat) (hv : validDate y m d = true) :
    pdaCore (renderMDY4 y m d) = fmtCanon (y, m, d) := by
  obtain ⟨_, hb, hc1, hc2, hd1, hd2⟩ := validDate_bounds hv
  refine pdaCore_eq_of rfl (strip_renderMDY4 y m d) ?_
  unfold tryFmts
  rw [strptimeMDY_render y m d hv hc1 hc2 hd1 hd2 hb]
  rfl

theorem pdaCore_R2 (y m d : Nat) (hv : validDate y m d = true) :
    pdaCore (renderMDY4dash y m d) = fmtCanon (y, m, d) := by
  obtain ⟨_, hb, hc1, hc2, hd1, hd2⟩ := validDate_bounds hv
  refine pdaCore_eq_of rfl (strip_renderMDY4dash y m d) ?_
  unfold tryFmts
  have h1 : strptimeMDY (renderMDY4dash y m d) = none :=
    strptimeMDY_sep_none m hc1 hc2 '-' (by decide) _
  rw [h1, strptimeMDYdash_render y m d hv hc1 hc2 hd1 hd2 hb]
  rfl

theorem pdaCore_R3 (y m d : Nat) (hv : validDate y m d = true)
    (hy1 : 1969 ≤ y) (hy2 : y ≤ 2068) :
    pdaCore (renderISO y m d) = fmtCanon (y, m, d) := by
  obtain ⟨_, hb, hc1, hc2, hd1, hd2⟩ := validDate_bounds hv
  refine pdaCore_eq_of rfl (strip_renderISO y m d) ?_
  unfold tryFmts
  have h1 : strptimeMDY (renderISO y m d) = none :=
    strptimeMDY_iso_none y hy1 hy2 _
  have h2 : strptimeMDYdash (renderISO y m d) = none :=
    strptimeMDYdash_iso_none y hy1 hy2 _
  rw [h1, h2, strptimeYmd_render y m d hv hc1 hc2 hd1 hd2 hb]
  rfl

theorem pdaCore_R4 (y m d : Nat) (hv : validDate y m d = true)
    (hy1 : 1969 ≤ y) (hy2 : y ≤ 2068) :
    pdaCore (renderMDY2 y m d) = fmtCanon (y, m, d) := by
  obtain ⟨_, _, hc1, hc2, hd1, hd2⟩ := validDate_bounds hv
  refine pdaCore_eq_of rfl (strip_renderMDY2 y m d) ?_
  unfold tryFmts
  have h1 : strptimeMDY (renderMDY2 y m d) = none :=
    strptimeMDY_y2_none y m d hc1 hc2 hd1 hd2
  have h2 : strptimeMDYdash (renderMDY2 y m d) = none :=
    strptimeMDYdash_sep_none m hc1 hc2 '/' (by decide) _
  have h3 : strptimeYmd (renderMDY2 y m d) = none :=
    strptimeYmd_2dig_none m _ '/' rfl
  rw [h1, h2, h3, strptimeMDy_render y m d hv hc1 hc2 hd1 hd2 hy1 hy2]
  rfl

theorem pmY4_nondigit_head {c1 : Char} (h : isDigitCh c1 = false) (rest : List Char) :
    pmY4 (c1 :: rest) = [] := by
  cases rest with
  | nil => rfl
  | cons c2 r2 =>
    cases r2 with
    | nil => rfl
    | cons c3 r3 =>
      cases r3 with
      | nil => rfl
      | cons c4 r4 => simp [pmY4, h]

theorem pmM_nondigit_head {c1 : Char} (h : isDigitCh c1 = false) (rest : List Char) :
    pmM (c1 :: rest) = [] := by
  have hcond : ('1' ≤ c1 && c1 ≤ '9') = false := by
    by_cases ha : '1' ≤ c1
    · by_cases hb : c1 ≤ '9'
      · exfalso
        have h0 : ('0' : Char) ≤ c1 := le_trans (by decide) ha
        unfold isDigitCh at h
        rw [decide_eq_true h0, decide_eq_true hb] at h
        cases h
      · simp [hb]
    · simp [ha]
  have hne1 : decide (c1 = '1') = false := by
    by_cases he : c1 = '1'
    · subst he
      cases h
    · simp [he]
  have hne0 : decide (c1 = '0') = false := by
    by_cases he : c1 = '0'
    · subst he
      cases h
    · simp [he]
  cases rest with
  | nil => simp [pmM, hcond, hne1, hne0]
  | cons c2 r2 => simp [pmM, hcond, hne1, hne0]

theorem pmWS_space_pad4' {y : Nat} :
    pmWS (' ' :: pad4 y) = [((), pad4 y)] :=
  pmWS_space_digit (show y / 1000 % 10 ≤ 9 by omega) _

/-! #### The textual month formats -/

theorem strptimeBdY_mon_success (mon : List Char) (mval y d : Nat)
    (hmon : pmMon monthAbbrevs
        (mon ++ ' ' :: (dayStr d ++ ',' :: ' ' :: pad4 y)) =
      [(mval, ' ' :: (dayStr d ++ ',' :: ' ' :: pad4 y))])
    (hv : validDate y mval d = true) (h3 : 1 ≤ d) (h4 : d ≤ 31) (hb : y ≤ 9999) :
    strptimeBdY (mon ++ ' ' :: (dayStr d ++ ',' :: ' ' :: pad4 y)) =
      some (y, mval, d) := by
  have hy4 : pmY4 (pad4 y) = [(y, [])] := by
    have := pmY4_pad4 hb []
    rwa [List.append_nil] at this
  have hpd := pmD_day h3 h4 (' ' :: pad4 y)
  unfold strptimeBdY
  rw [hmon]
  by_cases hd10 : 10 ≤ d
  · rw [if_pos hd10] at hpd
    simp only [pbind_single, pmWS_space_day, hpd, pbind_cons, pbind_nil,
      pmLit_cons_self, pmLit_cons_ne (digChar_ne_comma (show d % 10 ≤ 9 by omega)),
      pmWS_space_pad4', hy4, List.append_nil]
    simp [firstValid, hv]
  · rw [if_neg hd10] at hpd
    simp only [pbind_single, pmWS_space_day, hpd, pbind_cons, pbind_nil,
      pmLit_cons_self, pmWS_space_pad4', hy4, List.append_nil]
    simp [firstValid, hv]

theorem strptimeBBdY_mon_success (mon : List Char) (mval y d : Nat)
    (hmon : pmMon monthFulls
        (mon ++ ' ' :: (dayStr d ++ ',' :: ' ' :: pad4 y)) =
      [(mval, ' ' :: (dayStr d ++ ',' :: ' ' :: pad4 y))])
    (hv : validDate y mval d = true) (h3 : 1 ≤ d) (h4 : d ≤ 31) (hb : y ≤ 9999) :
    strptimeBBdY (mon ++ ' ' :: (dayStr d ++ ',' :: ' ' :: pad4 y)) =
      some (y, mval, d) := by
  have hy4 : pmY4 (pad4 y) = [(y, [])] := by
    have := pmY4_pad4 hb []
    rwa [List.append_nil] at this
  have hpd := pmD_day h3 h4 (' ' :: pad4 y)
  unfold strptimeBBdY
  rw [hmon]
  by_cases hd10 : 10 ≤ d
  · rw [if_pos hd10] at hpd
    simp only [pbind_single, pmWS_space_day, hpd, pbind_cons, pbind_nil,
      pmLit_cons_self, pmLit_cons_ne (digChar_ne_comma (show d % 10 ≤ 9 by omega)),
      pmWS_space_pad4', hy4, List.append_nil]
    simp [firstValid, hv]
  · rw [if_neg hd10] at hpd
    simp only [pbind_single, pmWS_space_day, hpd, pbind_cons, pbind_nil,
      pmLit_cons_self, pmWS_space_pad4', hy4, List.append_nil]
    simp [firstValid, hv]

theorem tryFmts_month_render (mon : List Char) (c1 : Char) (cs : List Char)
    (hshape : mon = c1 :: cs) (hc1 : isDigitCh c1 = false) (mval y d : Nat)
    (h5 : strptimeBdY (mon ++ ' ' :: (dayStr d ++ ',' :: ' ' :: pad4 y)) =
            some (y, mval, d) ∨
          (strptimeBdY (mon ++ ' ' :: (dayStr d ++ ',' :: ' ' :: pad4 y)) =
              none ∧
            strptimeBBdY (mon ++ ' ' :: (dayStr d ++ ',' :: ' ' :: pad4 y)) =
              some (y, mval, d))) :
    tryFmts (mon ++ ' ' :: (dayStr d ++ ',' :: ' ' :: pad4 y)) =
      some (y, mval, d) := by
  have hT : mon ++ ' ' :: (dayStr d ++ ',' :: ' ' :: pad4 y) =
      c1 :: (cs ++ ' ' :: (dayStr d ++ ',' :: ' ' :: pad4 y)) := by
    rw [hshape]
    rfl
  have f1 : strptimeMDY (mon ++ ' ' :: (dayStr d ++ ',' :: ' ' :: pad4 y)) =
      none := by
    rw [hT]
    unfold strptimeMDY
    rw [pmM_nondigit_head hc1, pbind_nil]
    rfl
  have f2 : strptimeMDYdash
      (mon ++ ' ' :: (dayStr d ++ ',' :: ' ' :: pad4 y)) = none := by
    rw [hT]
    unfold strptimeMDYdash
    rw [pmM_nondigit_head hc1, pbind_nil]
    rfl
  have f3 : strptimeYmd (mon ++ ' ' :: (dayStr d ++ ',' :: ' ' :: pad4 y)) =
      none := by
    rw [hT]
    unfold strptimeYmd
    rw [pmY4_nondigit_head hc1, pbind_nil]
    rfl
  have f4 : strptimeMDy (mon ++ ' ' :: (dayStr d ++ ',' :: ' ' :: pad4 y)) =
      none := by
    rw [hT]
    unfold strptimeMDy
    rw [pmM_nondigit_head hc1, pbind_nil]
    rfl
  unfold tryFmts
  rw [f1, f2, f3, f4]
  rcases h5 with h5 | ⟨h5a, h5b⟩
  · rw [h5]
    rfl
  · rw [h5a, h5b]
    rfl

theorem pdaCore_R5 (y m d : Nat) (hv : validDate y m d = true) :
    pdaCore (renderAbbrev y m d) = fmtCanon (y, m, d) := by
  obtain ⟨_, hb, hc1, hc2, hd1, hd2⟩ := validDate_bounds hv
  refine pdaCore_eq_of ?_ ?_ ?_
  · interval_cases m <;> rfl
  · show stripChars (monthAbbrevR m ++ ' ' :: (dayStr d ++ ',' :: ' ' :: pad4 y)) =
      monthAbbrevR m ++ ' ' :: (dayStr d ++ ',' :: ' ' :: pad4 y)
    interval_cases m <;> exact strip_renderMonth _ _ rfl (by decide) y d
  · show tryFmts (monthAbbrevR m ++ ' ' :: (dayStr d ++ ',' :: ' ' :: pad4 y)) =
      some (y, m, d)
    interval_cases m <;>
      exact tryFmts_month_render _ _ _ rfl (by decide) _ y d
        (Or.inl (strptimeBdY_mon_success _ _ y d
          (by simp [pmMon, monthAbbrevs, prefCI, lowCh]) hv hd1 hd2 hb))

theorem pdaCore_R6 (y m d : Nat) (hv : validDate y m d = true) :
    pdaCore (renderFull y m d) = fmtCanon (y, m, d) := by
  obtain ⟨_, hb, hc1, hc2, hd1, hd2⟩ := validDate_bounds hv
  refine pdaCore_eq_of ?_ ?_ ?_
  · interval_cases m <;> rfl
  · show stripChars (monthFullR m ++ ' ' :: (dayStr d ++ ',' :: ' ' :: pad4 y)) =
      monthFullR m ++ ' ' :: (dayStr d ++ ',' :: ' ' :: pad4 y)
    interval_cases m <;> exact strip_renderMonth _ _ rfl (by decide) y d
  · show tryFmts (monthFullR m ++ ' ' :: (dayStr d ++ ',' :: ' ' :: pad4 y)) =
      some (y, m, d)
    interval_cases m
    · exact tryFmts_month_render _ _ _ rfl (by decide) _ y d
        (Or.inr ⟨by
            simp [strptimeBdY, pmMon, monthAbbrevs, prefCI, lowCh, pbind,
              pmWS, repCand, List.takeWhile_cons, isSpaceCh, firstValid],
          strptimeBBdY_mon_success _ _ y d
            (by simp [pmMon, monthFulls, prefCI, lowCh]) hv hd1 hd2 hb⟩)
    · exact tryFmts_month_render _ _ _ rfl (by decide) _ y d
        (Or.inr ⟨by
            simp [strptimeBdY, pmMon, monthAbbrevs, prefCI, lowCh, pbind,
              pmWS, repCand, List.takeWhile_cons, isSpaceCh, firstValid],
          strptimeBBdY_mon_success _ _ y d
            (by simp [pmMon, monthFulls, prefCI, lowCh]) hv hd1 hd2 hb⟩)
    · exact tryFmts_month_render _ _ _ rfl (by decide) _ y d
        (Or.inr ⟨by
            simp [strptimeBdY, pmMon, monthAbbrevs, prefCI, lowCh, pbind,
              pmWS, repCand, List.takeWhile_cons, isSpaceCh, firstValid],
          strptimeBBdY_mon_success _ _ y d
            (by simp [pmMon, monthFulls, prefCI, lowCh]) hv hd1 hd2 hb⟩)
    · exact tryFmts_month_render _ _ _ rfl (by decide) _ y d
        (Or.inr ⟨by
            simp [strptimeBdY, pmMon, monthAbbrevs, prefCI, lowCh, pbind,
              pmWS, repCand, List.takeWhile_cons, isSpaceCh, firstValid],
          strptimeBBdY_mon_success _ _ y d
            (by simp [pmMon, monthFulls, prefCI, lowCh]) hv hd1 hd2 hb⟩)
    · exact tryFmts_month_render _ _ _ rfl (by decide) _ y d
        (Or.inl (strptimeBdY_mon_success _ _ y d
          (by simp [pmMon, monthAbbrevs, prefCI, lowCh]) hv hd1 hd2 hb))
    · exact tryFmts_month_render _ _ _ rfl (by decide) _ y d
        (Or.inr ⟨by
            simp [strptimeBdY, pmMon, monthAbbrevs, prefCI, lowCh, pbind,
              pmWS, repCand, List.takeWhile_cons, isSpaceCh, firstValid],
          strptimeBBdY_mon_success _ _ y d
            (by simp [pmMon, monthFulls, prefCI, lowCh]) hv hd1 hd2 hb⟩)
    · exact tryFmts_month_render _ _ _ rfl (by decide) _ y d
        (Or.inr ⟨by
            simp [strptimeBdY, pmMon, monthAbbrevs, prefCI, lowCh, pbind,
              pmWS, repCand, List.takeWhile_cons, isSpaceCh, firstValid],
          strptimeBBdY_mon_success _ _ y d
            (by simp [pmMon, monthFulls, prefCI, lowCh]) hv hd1 hd2 hb⟩)
    · exact tryFmts_month_render _ _ _ rfl (by decide) _ y d
        (Or.inr ⟨by
            simp [strptimeBdY, pmMon, monthAbbrevs, prefCI, lowCh, pbind,
              pmWS, repCand, List.takeWhile_cons, isSpaceCh, firstValid],
          strptimeBBdY_mon_success _ _ y d
            (by simp [pmMon, monthFulls, prefCI, lowCh]) hv hd1 hd2 hb⟩)
    · exact tryFmts_month_render _ _ _ rfl (by decide) _ y d
        (Or.inr ⟨by
            simp [strptimeBdY, pmMon, monthAbbrevs, prefCI, lowCh, pbind,
              pmWS, repCand, List.takeWhile_cons, isSpaceCh, firstValid],
          strptimeBBdY_mon_success _ _ y d
            (by simp [pmMon, monthFulls, prefCI, lowCh]) hv hd1 hd2 hb⟩)
    · exact tryFmts_month_render _ _ _ rfl (by decide) _ y d
        (Or.inr ⟨by
            simp [strptimeBdY, pmMon, monthAbbrevs, prefCI, lowCh, pbind,
              pmWS, repCand, List.takeWhile_cons, isSpaceCh, firstValid],
          strptimeBBdY_mon_success _ _ y d
            (by simp [pmMon, monthFulls, prefCI, lowCh]) hv hd1 hd2 hb⟩)
    · exact tryFmts_month_render _ _ _ rfl (by decide) _ y d
        (Or.inr ⟨by
            simp [strptimeBdY, pmMon, monthAbbrevs, prefCI, lowCh, pbind,
              pmWS, repCand, List.takeWhile_cons, isSpaceCh, firstValid],
          strptimeBBdY_mon_success _ _ y d
            (by simp [pmMon, monthFulls, prefCI, lowCh]) hv hd1 hd2 hb⟩)
    · exact tryFmts_month_render _ _ _ rfl (by decide) _ y d
        (Or.inr ⟨by
            simp [strptimeBdY, pmMon, monthAbbrevs, prefCI, lowCh, pbind,
              pmWS, repCand, List.takeWhile_cons, isSpaceCh, firstValid],
          strptimeBBdY_mon_success _ _ y d
            (by simp [pmMon, monthFulls, prefCI, lowCh]) hv hd1 hd2 hb⟩)

theorem C2_witness :
    ("X.pdf" : String) ∈ (["X.pdf"] : List String) ∧
      (⟨bumpName ("X.pdf" : String).data 2⟩ : String) ∉ (["X.pdf"] : List String) ∧
      resolveName ["X.pdf"] "X.pdf" = "X (2).pdf" ∧
      ("Y.pdf" : String) ∈ (["Y.pdf", "Y (2).pdf"] : List String) ∧
      (⟨bumpName ("Y.pdf" : String).data 2⟩ : String) ∈
        (["Y.pdf", "Y (2).pdf"] : List String) ∧
      (⟨bumpName (bumpName ("Y.pdf" : String).data 2) 3⟩ : String) ∉
        (["Y.pdf", "Y (2).pdf"] : List String) ∧
      resolveName ["Y.pdf", "Y (2).pdf"] "Y.pdf" = "Y (2) (3).pdf" :=
  ⟨by decide, by decide,
    (C2_amended_collision.2.1 ["X.pdf"] "X.pdf" (by decide) (by decide)).trans rfl,
    by decide, by decide, by decide,
    (C2_amended_collision.2.2 ["Y.pdf", "Y (2).pdf"] "Y.pdf" (by decide) (by decide)
        (by decide)).trans rfl⟩

/-! ### Claim C5 -/

/-- C5 counterexample: the six renderings do not all normalize to one
canonical string for every calendar date.  For March 5, 1950 the
`MM/DD/YY` rendering "03/05/50" is parsed under the POSIX two-digit
century rule (00–68 ↦ 2000+) to the year 2050, while "03/05/1950"
normalizes to "03-05-1950". -/
theorem C5_counterexample :
    validDate 1950 3 5 = true ∧
      parse_date_any ⟨renderMDY4 1950 3 5⟩ = "03-05-1950" ∧
      parse_date_any ⟨renderMDY2 1950 3 5⟩ = "03-05-2050" ∧
      parse_date_any ⟨renderMDY2 1950 3 5⟩ ≠ parse_date_any ⟨renderMDY4 1950 3 5⟩ :=
  ⟨rfl, rfl, rfl, by decide⟩

/-- C5 amended: for calendar dates whose year lies in 1969–2068 — the
range on which the POSIX two-digit-year century rule inverts the
`MM/DD/YY` rendering — all six supported renderings of the date
normalize to the same canonical `MM-DD-YYYY` string. -/
theorem C5_amended_normalization (y m d : Nat) (hv : validDate y m d = true)
    (hy1 : 1969 ≤ y) (hy2 : y ≤ 2068) :
    parse_date_any ⟨renderMDY4 y m d⟩ = ⟨fmtCanon (y, m, d)⟩ ∧
      parse_date_any ⟨renderMDY4dash y m d⟩ = ⟨fmtCanon (y, m, d)⟩ ∧
      parse_date_any ⟨renderISO y m d⟩ = ⟨fmtCanon (y, m, d)⟩ ∧
      parse_date_any ⟨renderMDY2 y m d⟩ = ⟨fmtCanon (y, m, d)⟩ ∧
      parse_date_any ⟨renderAbbrev y m d⟩ = ⟨fmtCanon (y, m, d)⟩ ∧
      parse_date_any ⟨renderFull y m d⟩ = ⟨fmtCanon (y, m, d)⟩ :=
  ⟨congrArg String.mk (pdaCore_R1 y m d hv),
    congrArg String.mk (pdaCore_R2 y m d hv),
    congrArg String.mk (pdaCore_R3 y m d hv hy1 hy2),
    congrArg String.mk (pdaCore_R4 y m d hv hy1 hy2),
    congrArg String.mk (pdaCore_R5 y m d hv),
    congrArg String.mk (pdaCore_R6 y m d hv)⟩

theorem C5_witness :
    validDate 2024 3 5 = true ∧ 1969 ≤ 2024 ∧ 2024 ≤ 2068 ∧
      parse_date_any ⟨renderISO 2024 3 5⟩ = ⟨fmtCanon (2024, 3, 5)⟩ ∧
      parse_date_any ⟨renderMDY2 2024 3 5⟩ = ⟨fmtCanon (2024, 3, 5)⟩ ∧
      parse_date_any ⟨renderFull 2024 3 5⟩ = ⟨fmtCanon (2024, 3, 5)⟩ :=
  ⟨rfl, by decide, by decide,
    (C5_amended_normalization 2024 3 5 rfl (by decide) (by decide)).2.2.1,
    (C5_amended_normalization 2024 3 5 rfl (by decide) (by decide)).2.2.2.1,
    (C5_amended_normalization 2024 3 5 rfl (by decide) (by decide)).2.2.2.2.2⟩

theorem C6_witness :
    ("123456789" : String) ∈
        iterate_hearings_collect_anums ⟨2024, 1, 1⟩ ⟨2024, 12, 31⟩
          [⟨[some "A# 123-456-789"], false⟩] ∧
      ("123456789" : String).data.length = 9 ∧
      ("123456789" : String).data.all isDigitCh = true :=
  ⟨by decide,
    (C6_identifier_set_shape ⟨2024, 1, 1⟩ ⟨2024, 12, 31⟩
        [⟨[some "A# 123-456-789"], false⟩]).2.2 "123456789" (by decide)⟩
